import Mathlib

/-!
Verification of `flapison/schema.py` (marshmallow schema helpers).

Shallow embedding notes:

* Python strings are Lean `String`; `s.split(".")` is `s.splitOn "."`,
  `".".join(l)` is `String.intercalate "." l`, and `"." in s` is
  `s.contains '.'`.
* A marshmallow schema class is `SchemaCls`: its `__name__`, its
  `Meta.type_`, and its `_declared_fields` ordered dict (`FieldMap`).
* A declared field carries: whether it is a `Relationship`
  (`isinstance(..., Relationship)`), its `attribute` (possibly `None`),
  the private `_Relationship__schema` slot (`RelRef`), and the optional
  `only` / `exclude` attributes probed with `hasattr` (outer `Option` =
  `hasattr`, inner value is the attribute's value, itself possibly `None`).
* `RelRef` is the stored related-schema reference: a class object
  (`clsRef`), a registry name string (`regRef`), a pre-built schema
  instance (`instRef`, carrying its class plus the `only` / `exclude` /
  `many` attributes that lines 102-106 read from it), `noneRef` for a
  `None` slot, or `computed` for an instance written back by line 135.
* Keyword-argument dicts are `SKwargs`.  A key that is absent and a key
  present with value `None` behave identically at every read site of the
  source (`.get(...)`, `... is not None`), except `"context"`, whose bare
  presence is tested with `in`; so `only` / `exclude` / `many` collapse
  absent/None into `none`, while `context` presence is `Option.isSome`.
* `schema_kwargs = default_kwargs` (line 23) aliases the caller's dict, so
  the in-place writes at lines 24, 44 and 87 mutate the caller's
  dictionary.  `compute_schema` here returns the pair
  (constructed schema, final state of the caller's `default_kwargs`).
  On an exception the mutated-state is not returned (the Lean result is
  just the error), which loses only the partial mutation of an aborted
  call.
* The marshmallow constructor `schema_cls(**schema_kwargs)` is modelled as
  a record former `CSchema.mk cls kwargs cls.fields`: marshmallow's
  `Schema.__init__` deep-copies `_declared_fields` into the instance's
  `declared_fields`, which is why line 135's write targets the instance
  copy and never the class-level field objects.  Marshmallow-side
  validation of `only` names is outside this module and not modelled.
* `tuple(set(...))` has unspecified order in Python; the embedding fixes
  first-occurrence order (`listInter`, `setInterList`, `setUnionList`);
  theorems about those values are stated up to membership.
* Recursion in `compute_schema` terminates because each nested include
  path loses its first segment; the embedding makes this explicit with a
  `fuel` argument (`0` fuel yields the artificial error `outOfFuel`).
-/

/-- Generic association-list lookup: Python `dict[k]` / `k in dict`
(first binding wins; real dicts have unique keys). -/
def lookupG {α : Type} : List (String × α) → String → Option α
  | [], _ => none
  | (k, v) :: rest, key => if k = key then some v else lookupG rest key

/-- Python `related_includes[field] += [tail]`: append to the list stored under an
existing key (no-op when the key is absent, which the call sites rule out). -/
def appendG : List (String × List String) → String → String → List (String × List String)
  | [], _, _ => []
  | (k, v) :: rest, key, x =>
    if k = key then (k, v ++ [x]) :: rest else (k, v) :: appendG rest key x

/-- Python `s.split(".")`: maximal split on the dot character; the result
is never empty (`"".split(".") == [""]`).  Implemented structurally over
the character list so that it reduces in the kernel. -/
def splitDotChars : List Char → List String
  | [] => [""]
  | c :: rest =>
    let r := splitDotChars rest
    if c = '.' then "" :: r
    else
      match r with
      | [] => [String.mk [c]]
      | s :: tail => String.mk (c :: s.data) :: tail

/-- Python `include_path.split(".")[0]` (a `split` result is never empty). -/
def firstSeg (p : String) : String := (splitDotChars p.data).headD ""

/-- Python `".".join(l)`. -/
def joinDot : List String → String
  | [] => ""
  | [s] => s
  | s :: rest => s ++ "." ++ joinDot rest

/-- Python `".".join(include_path.split(".")[1:])`. -/
def restSeg (p : String) : String := joinDot (splitDotChars p.data).tail

/-- Python `"." in include_path`. -/
def hasDot (p : String) : Bool := p.data.contains '.'

/-- The keyword-argument dictionary handed to / mutated by `compute_schema`
(see the header comment for the absent-vs-None collapse). -/
structure SKwargs where
  only : Option (List String) := none
  exclude : Option (List String) := none
  includeData : List String := []
  context : Option String := none
  many : Option Bool := none
deriving DecidableEq, Repr

/-- Exceptions the embedded functions can surface.  `invalidInclude` is the
module's own `InvalidInclude`; `registryError` stands for marshmallow's
`RegistryError`; `genericError` for the bare `Exception(...)` raises;
`keyError` / `attrError` for the Python `KeyError` / `AttributeError` that
would escape on malformed inputs; `outOfFuel` is the embedding's
termination-fuel artifact. -/
inductive CsErr : Type where
  | invalidInclude (msg : String)
  | registryError (msg : String)
  | genericError (msg : String)
  | keyError
  | attrError
  | outOfFuel
deriving DecidableEq, Repr

/-- The part of `QueryStringManager` that `compute_schema` reads:
`qs.fields`, the sparse-fieldset dict mapping a resource type to the
requested field names. -/
structure QS where
  fields : List (String × List String) := []
deriving DecidableEq, Repr

mutual

/-- A marshmallow schema class: `__name__`, `Meta.type_`,
`_declared_fields`. -/
inductive SchemaCls : Type where
  | mk (name : String) (type_ : String) (fields : FieldMap) : SchemaCls

/-- The `_Relationship__schema` slot of a `Relationship` field. -/
inductive RelRef : Type where
  | noneRef : RelRef
  | clsRef (c : SchemaCls) : RelRef
  | regRef (n : String) : RelRef
  | instRef (c : SchemaCls) (only : Option (List String)) (exclude : List String)
      (many : Bool) : RelRef
  | computed (s : CSchema) : RelRef

/-- A declared marshmallow field (see the header comment). -/
inductive MField : Type where
  | mk (isRel : Bool) (attr : Option String) (rel : RelRef)
      (fOnly : Option (Option (List String))) (fExcl : Option (Option (List String))) : MField

/-- An ordered dict of declared fields. -/
inductive FieldMap : Type where
  | fnil : FieldMap
  | fcons (name : String) (f : MField) (rest : FieldMap) : FieldMap

/-- A constructed schema instance: its class, the keyword arguments it was
built with, and its own (deep-copied, possibly rewritten) declared fields. -/
inductive CSchema : Type where
  | mk (cls : SchemaCls) (kwargs : SKwargs) (declared : FieldMap) : CSchema

end

def SchemaCls.name : SchemaCls → String
  | .mk n _ _ => n

def SchemaCls.type_ : SchemaCls → String
  | .mk _ t _ => t

def SchemaCls.fields : SchemaCls → FieldMap
  | .mk _ _ f => f

def MField.isRel : MField → Bool
  | .mk b _ _ _ _ => b

def MField.attr : MField → Option String
  | .mk _ a _ _ _ => a

def MField.rel : MField → RelRef
  | .mk _ _ r _ _ => r

def MField.fOnly : MField → Option (Option (List String))
  | .mk _ _ _ o _ => o

def MField.fExcl : MField → Option (Option (List String))
  | .mk _ _ _ _ e => e

/-- The write `relation_field.__dict__["_Relationship__schema"] = related_schema`. -/
def MField.withRel : MField → RelRef → MField
  | .mk b a _ o e, r => .mk b a r o e

def CSchema.cls : CSchema → SchemaCls
  | .mk c _ _ => c

def CSchema.kwargs : CSchema → SKwargs
  | .mk _ k _ => k

def CSchema.declared : CSchema → FieldMap
  | .mk _ _ f => f

/-- Python `_declared_fields[field]` / `field in _declared_fields`. -/
def lookupFM : FieldMap → String → Option MField
  | .fnil, _ => none
  | .fcons k f rest, key => if k = key then some f else lookupFM rest key

/-- Python `_declared_fields.keys()`. -/
def fmKeys : FieldMap → List String
  | .fnil => []
  | .fcons k _ rest => k :: fmKeys rest

/-- Python `_declared_fields.items()`. -/
def fmPairs : FieldMap → List (String × MField)
  | .fnil => []
  | .fcons k f rest => (k, f) :: fmPairs rest

/-- In-place overwrite of the (first) binding of a key. -/
def updateFM : FieldMap → String → MField → FieldMap
  | .fnil, _, _ => .fnil
  | .fcons k f rest, key, f' =>
    if k = key then .fcons k f' rest else .fcons k f (updateFM rest key f')

/-- One entry of marshmallow's `class_registry._registry`: a registered
class together with its readable-or-not `opts.type_` (`none` models the
`AttributeError` swallowed by `get_schema_from_type`). -/
structure RegCls where
  cls : SchemaCls
  optsType : Option String

/-- The external world: marshmallow's class registry, mapping a name to the
list of classes registered under it. -/
structure Env where
  registry : List (String × List RegCls) := []

/-- Models `marshmallow.class_registry.get_class(classname)`: raises when the name
is unregistered or ambiguous (several classes registered under it). -/
def getRegisteredClass (env : Env) (classname : String) : Except CsErr SchemaCls :=
  match lookupG env.registry classname with
  | none => .error (.registryError ("Class with name " ++ classname ++ " was not found"))
  | some [c] => .ok c.cls
  | some _ => .error (.registryError ("Multiple classes with name " ++ classname))

/-- Lines 30-48 of the include loop, `related_includes` half: build the
insertion-ordered dict of per-relationship remainder paths. -/
def addInclude (acc : List (String × List String)) (p : String) :
    List (String × List String) :=
  if hasDot p then
    appendG (if (lookupG acc (firstSeg p)).isSome then acc
             else acc ++ [(firstSeg p, [])]) (firstSeg p) (restSeg p)
  else if (lookupG acc (firstSeg p)).isSome then acc
  else acc ++ [(firstSeg p, [])]

def buildRelatedIncludes (inc : List String) : List (String × List String) :=
  inc.foldl addInclude []

/-- Lines 54-62 / 76-84: group the dotted `only` (resp. `exclude`) paths by
their first segment, dropping dot-free entries. -/
def addGroup (acc : List (String × List String)) (p : String) :
    List (String × List String) :=
  if hasDot p then
    appendG (if (lookupG acc (firstSeg p)).isSome then acc
             else acc ++ [(firstSeg p, [])]) (firstSeg p) (restSeg p)
  else acc

def buildGroups (paths : List String) : List (String × List String) :=
  paths.foldl addGroup []

/-- Lines 66-69: `set(declared) & set(qs.fields[type_])`, optionally
`&= set(only)`, rendered in declared-key order. -/
def listInter (declared qsf : List String) (only0 : Option (List String)) : List String :=
  let t1 := declared.filter (fun x => qsf.contains x)
  match only0 with
  | some o => t1.filter (fun x => o.contains x)
  | none => t1

/-- Lines 71-73: append `"id"` to a non-None `only` that lacks it. -/
def withId : Option (List String) → Option (List String)
  | none => none
  | some l => if l.contains "id" then some l else some (l ++ ["id"])

/-- Lines 50-73, the whole `only` computation of one call. -/
def computeOnly (cls : SchemaCls) (qs : QS) (only0 : Option (List String)) :
    Option (List String) :=
  match lookupG qs.fields cls.type_ with
  | some qsf => withId (some (listInter (fmKeys cls.fields) qsf only0))
  | none => withId only0

/-- Lines 117-121: `set(related_only[field])`, `&= set(kwargs["only"])`. -/
def setInterList (ro : List String) : Option (List String) → List String
  | some l => ro.dedup.filter (fun x => l.contains x)
  | none => ro.dedup

/-- Lines 123-127: `set(related_exclude[field])`, `|= set(kwargs["exclude"])`. -/
def setUnionList (re : List String) : Option (List String) → List String
  | some l => (re ++ l).dedup
  | none => re.dedup

/-- Lines 102-109: extract the related schema class from the stored
reference (instance → its `__class__`; string → registry lookup; `None`
would make the recursive call blow up on attribute access). -/
def resolveCls (env : Env) : RelRef → Except CsErr SchemaCls
  | .noneRef => .error .attrError
  | .clsRef c => .ok c
  | .regRef n => getRegisteredClass env n
  | .instRef c _ _ _ => .ok c
  | .computed s => .ok s.cls

/-- Lines 98-127: assemble `related_schema_kwargs` for one include path with
first segment `f` (context copy; instance attribute extraction; `hasattr`
overrides; `related_only` / `related_exclude` merges). -/
def mkRelatedKwargs (dk : SKwargs) (fld : MField)
    (relOnly relExcl : List (String × List String)) (f : String) : SKwargs :=
  let k0 : SKwargs := { context := dk.context }
  let k1 : SKwargs :=
    match fld.rel with
    | .instRef _ o e m => { k0 with only := o, exclude := some e, many := some m }
    | .computed s =>
        { k0 with
          only := s.kwargs.only
          exclude := some (s.kwargs.exclude.getD [])
          many := some (s.kwargs.many.getD false) }
    | _ => k0
  let k2 : SKwargs := match fld.fOnly with
    | some v => { k1 with only := v }
    | none => k1
  let k3 : SKwargs := match fld.fExcl with
    | some v => { k2 with exclude := v }
    | none => k2
  let k4 : SKwargs := match lookupG relOnly f with
    | some ro => { k3 with only := some (setInterList ro k3.only) }
    | none => k3
  match lookupG relExcl f with
  | some re => { k4 with exclude := some (setUnionList re k4.exclude) }
  | none => k4

/-- Python `related_includes[field] or None`. -/
def optOf (l : List String) : Option (List String) :=
  if l.isEmpty then none else some l

/-- Lines 33-42: validate the first segment of one include path. -/
def checkIncludePath (cls : SchemaCls) (p : String) : Except CsErr Unit :=
  match lookupFM cls.fields (firstSeg p) with
  | none => .error (.invalidInclude (cls.name ++ " has no attribute " ++ firstSeg p))
  | some fld =>
    if fld.isRel then .ok ()
    else .error (.invalidInclude
      (firstSeg p ++ " is not a relationship attribute of " ++ cls.name))

/-- The validation half of the lines 29-48 loop. -/
def validateIncludes (cls : SchemaCls) : List String → Except CsErr Unit
  | [] => .ok ()
  | p :: rest =>
    match checkIncludePath cls p with
    | .error e => .error e
    | .ok _ => validateIncludes cls rest

/-- Lines 92-135, the body of the compound-documents loop for one include
path, parameterised by the recursive call (`recurse`). -/
def includeStep
    (env : Env)
    (recurse : SchemaCls → SKwargs → Option (List String) → Except CsErr (CSchema × SKwargs))
    (dk : SKwargs) (relInc relOnly relExcl : List (String × List String))
    (fields : FieldMap) (p : String) : Except CsErr FieldMap :=
  match lookupFM fields (firstSeg p) with
  | none => .error .keyError
  | some fld =>
    match resolveCls env fld.rel with
    | .error e => .error e
    | .ok rcls =>
      match recurse rcls (mkRelatedKwargs dk fld relOnly relExcl (firstSeg p))
          (optOf ((lookupG relInc (firstSeg p)).getD [])) with
      | .error e => .error e
      | .ok (s', _) => .ok (updateFM fields (firstSeg p) (fld.withRel (.computed s')))

/-- Lines 91-135: the compound-documents loop over all include paths,
threading the instance's (mutated) declared fields. -/
def processIncludes
    (env : Env)
    (recurse : SchemaCls → SKwargs → Option (List String) → Except CsErr (CSchema × SKwargs))
    (dk : SKwargs) (relInc relOnly relExcl : List (String × List String)) :
    List String → FieldMap → Except CsErr FieldMap
  | [], fields => .ok fields
  | p :: rest, fields =>
    match includeStep env recurse dk relInc relOnly relExcl fields p with
    | .error e => .error e
    | .ok fields' => processIncludes env recurse dk relInc relOnly relExcl rest fields'

/-- Python `if include:` — `None` and `[]` are both falsy. -/
def incList : Option (List String) → List String
  | none => []
  | some l => l

/-- The function `compute_schema(schema_cls, default_kwargs, qs, include)` (lines 12-137),
with an explicit recursion fuel.  Returns the constructed schema together
with the final state of the caller's `default_kwargs` (aliased by
`schema_kwargs` and mutated in place at lines 24, 44 and 87). -/
def compute_schema (env : Env) :
    Nat → SchemaCls → SKwargs → QS → Option (List String) →
      Except CsErr (CSchema × SKwargs)
  | 0, _, _, _, _ => .error .outOfFuel
  | fuel + 1, cls, dk, qs, includeArg =>
    let inc := incList includeArg
    match validateIncludes cls inc with
    | .error e => .error e
    | .ok _ =>
      let dk3 : SKwargs :=
        { dk with includeData := inc.map firstSeg, only := computeOnly cls qs dk.only }
      match processIncludes env (fun c k i => compute_schema env fuel c k qs i) dk3
          (buildRelatedIncludes inc) (buildGroups (dk.only.getD []))
          (buildGroups (dk.exclude.getD [])) inc cls.fields with
      | .error e => .error e
      | .ok finalFields => .ok (CSchema.mk cls dk3 finalFields, dk3)

/-- The model-field name a declared field `(k, fld)` yields:
`fld.attribute` when set, otherwise the schema field name itself. -/
def modelFieldOf (fld : MField) (k : String) : String :=
  (fld.attr).getD k

/-- The function `get_model_field(schema, field)` (lines 140-152). -/
def get_model_field (schema : SchemaCls) (field : String) : Except CsErr String :=
  match lookupFM schema.fields field with
  | none => .error (.genericError (schema.name ++ " has no attribute " ++ field))
  | some fld => .ok (modelFieldOf fld field)

/-- The scan of lines 231-233 over the `schema_fields_to_model` dict,
in declared-field order. -/
def findSchemaField : FieldMap → String → Option String
  | .fnil, _ => none
  | .fcons k fld rest, m =>
    if modelFieldOf fld k = m then some k else findSchemaField rest m

/-- The function `get_schema_field(schema, field)` (lines 220-235). -/
def get_schema_field (schema : SchemaCls) (field : String) : Except CsErr String :=
  match findSchemaField schema.fields field with
  | some k => .ok k
  | none => .error (.genericError ("Couldnt find schema field from " ++ field))

/-- Reading `cls[0].opts.type_` with its two failure modes (empty registration
list, unreadable `opts.type_`). -/
def readOptsType : List RegCls → Option String
  | [] => none
  | c :: _ => c.optsType

/-- The head class of a registry entry. -/
def headCls : List RegCls → Option SchemaCls
  | [] => none
  | c :: _ => some c.cls

/-- The scan of lines 210-215: first entry whose `opts.type_` is readable
and equal, entries with unreadable `opts.type_` skipped by the
`try/except`. -/
def schemaFromTypeScan (resource_type : String) :
    List (String × List RegCls) → Except CsErr SchemaCls
  | [] => .error (.genericError ("Couldnt find schema for type: " ++ resource_type))
  | (_, entry) :: rest =>
    match entry with
    | [] => schemaFromTypeScan resource_type rest
    | c :: _ =>
      match c.optsType with
      | none => schemaFromTypeScan resource_type rest
      | some t =>
        if t = resource_type then .ok c.cls
        else schemaFromTypeScan resource_type rest

/-- The function `get_schema_from_type(resource_type)` (lines 204-217). -/
def get_schema_from_type (env : Env) (resource_type : String) : Except CsErr SchemaCls :=
  schemaFromTypeScan resource_type env.registry

/-- Holds on an include path whose first dot-separated segment names a
declared `Relationship` field of the class (the condition lines 33-42
validate). -/
def goodFirst (cls : SchemaCls) (p : String) : Bool :=
  match lookupFM cls.fields (firstSeg p) with
  | none => false
  | some fld => fld.isRel

/-- Spec-side description of `related_includes[f]`: the remainders of the
include paths whose first segment is `f`, each with its first segment and
dot removed (dot-free paths contribute nothing). -/
def dottedRemainders (f : String) : List String → List String
  | [] => []
  | q :: rest =>
    if firstSeg q = f ∧ hasDot q = true then restSeg q :: dottedRemainders f rest
    else dottedRemainders f rest

/-- The `InvalidInclude` message of a result, `none` when the result is a
success or any other error. -/
def invalidIncludeMsg (r : Except CsErr (CSchema × SKwargs)) : Option String :=
  match r with
  | .error (.invalidInclude m) => some m
  | _ => none

/-- The `only` value the schema of a successful result was constructed
with. -/
def resultOnly (r : Except CsErr (CSchema × SKwargs)) : Option (Option (List String)) :=
  match r with
  | .ok (s, _) => some s.kwargs.only
  | _ => none

/-- The final state of the caller's `default_kwargs` after a successful
call. -/
def resultKwargs (r : Except CsErr (CSchema × SKwargs)) : Option SKwargs :=
  match r with
  | .ok (_, k) => some k
  | _ => none

/-- Concrete fixture: a leaf schema class. -/
def clsTag : SchemaCls :=
  .mk "TagSchema" "tags" (.fcons "id" (.mk false none .noneRef none none) .fnil)

/-- Concrete fixture: a schema class with a plain `id`, a renamed `name`
(model attribute `full_name`) and a `tags` relationship. -/
def clsPerson : SchemaCls :=
  .mk "PersonSchema" "people"
    (.fcons "id" (.mk false none .noneRef none none)
      (.fcons "name" (.mk false (some "full_name") .noneRef none none)
        (.fcons "tags" (.mk true none (.clsRef clsTag) none none) .fnil)))

/-- Concrete fixture: a schema class with no declared `id` field. -/
def clsThing : SchemaCls :=
  .mk "ThingSchema" "things" (.fcons "name" (.mk false none .noneRef none none) .fnil)

/-- Concrete fixture: a two-level relationship chain for nested includes. -/
def clsCc : SchemaCls :=
  .mk "CSch" "cs" (.fcons "id" (.mk false none .noneRef none none) .fnil)

def clsBb : SchemaCls :=
  .mk "BSch" "bs"
    (.fcons "id" (.mk false none .noneRef none none)
      (.fcons "c" (.mk true none (.clsRef clsCc) none none) .fnil))

def clsAa : SchemaCls :=
  .mk "ASch" "as"
    (.fcons "id" (.mk false none .noneRef none none)
      (.fcons "b" (.mk true none (.clsRef clsBb) none none) .fnil))

/-- Concrete fixture: empty environment and query strings. -/
def envT : Env := {}

def qsE : QS := {}

/-- Concrete fixture: sparse fieldset requesting only `name` for type
`people`. -/
def qsPeople : QS := { fields := [("people", ["name"])] }

/-- Concrete fixture: sparse fieldset with undeclared names (`id`, `bogus`)
for type `things`. -/
def qsThings : QS := { fields := [("things", ["id", "bogus"])] }

/-- Concrete fixture: a registry with an empty entry, an entry whose
`opts.type_` is unreadable, and two readable entries. -/
def envR : Env :=
  { registry :=
      [ ("Junk", [])
      , ("BadOpts", [⟨clsTag, none⟩])
      , ("PersonSchema", [⟨clsPerson, some "people"⟩])
      , ("TagSchema", [⟨clsTag, some "tags"⟩]) ] }

/-- The value `schema_kwargs` holds from line 87 on: the caller's dict with
`include_data` and `only` overwritten. -/
def dkAfter (cls : SchemaCls) (dk : SKwargs) (qs : QS) (ia : Option (List String)) : SKwargs :=
  { dk with includeData := (incList ia).map firstSeg, only := computeOnly cls qs dk.only }

/-- Pointwise correspondence of two declared-field maps: same keys in the
same order, and relationship references that resolve identically.  Used to
show that the error outcome of `compute_schema` does not depend on the
query string or the keyword arguments. -/
def FShape (env : Env) : FieldMap → FieldMap → Prop
  | .fnil, .fnil => True
  | .fcons k1 f1 r1, .fcons k2 f2 r2 =>
      k1 = k2 ∧ resolveCls env f1.rel = resolveCls env f2.rel ∧ FShape env r1 r2
  | .fnil, .fcons _ _ _ => False
  | .fcons _ _ _, .fnil => False

/-- The field `fld0` is a loop-time state of the declared field stored
under `f` in `fields0`: either that field itself, or that field with its
`_Relationship__schema` slot already rewritten to a computed schema
instance by an earlier iteration of the compound-documents loop (this
happens when several include paths share the same first segment). -/
def FieldStateOf (fields0 : FieldMap) (f : String) (fld0 : MField) : Prop :=
  ∃ fldOrig, lookupFM fields0 f = some fldOrig ∧
    (fld0 = fldOrig ∨ ∃ sPrev, fld0 = fldOrig.withRel (.computed sPrev))

theorem withRel_rel (fld : MField) (r : RelRef) : (fld.withRel r).rel = r := by
  cases fld
  rfl

theorem withRel_withRel (fld : MField) (a b : RelRef) :
    (fld.withRel a).withRel b = fld.withRel b := by
  cases fld
  rfl


theorem exists_ok_of_isOk {ε α : Type} (r : Except ε α) (h : r.isOk = true) :
    ∃ v, r = .ok v := by
  cases r with
  | ok v => exact ⟨v, rfl⟩
  | error e => simp [Except.isOk, Except.toBool] at h

theorem lookupG_append {α : Type} (A : List (String × α)) (k0 : String) (v0 : α)
    (g : String) :
    lookupG (A ++ [(k0, v0)]) g =
      match lookupG A g with
      | some v => some v
      | none => if k0 = g then some v0 else none := by
  induction A with
  | nil => simp [lookupG]
  | cons a rest ih =>
    obtain ⟨k, v⟩ := a
    by_cases h : k = g
    · simp [lookupG, h]
    · simp [lookupG, h, ih]

theorem appendG_lookup (A : List (String × List String)) (f x g : String) :
    lookupG (appendG A f x) g =
      if g = f then (lookupG A f).map (fun l => l ++ [x]) else lookupG A g := by
  induction A with
  | nil => simp [appendG, lookupG]
  | cons a rest ih =>
    obtain ⟨k, v⟩ := a
    simp only [appendG]
    by_cases hk : k = f
    · rw [if_pos hk]
      subst hk
      by_cases hg : g = k
      · subst hg
        simp [lookupG]
      · have hkg : ¬ k = g := fun h => hg h.symm
        simp [lookupG, hkg, hg]
    · rw [if_neg hk]
      by_cases hg : k = g
      · subst hg
        have hgf : ¬ k = f := hk
        simp [lookupG, hgf]
      · simp [lookupG, hg, hk, ih]

theorem lookupFM_updateFM : ∀ (A : FieldMap) (f : String) (v : MField) (g : String),
    lookupFM (updateFM A f v) g =
      if g = f then (lookupFM A f).map (fun _ => v) else lookupFM A g
  | .fnil, f, v, g => by simp [updateFM, lookupFM]
  | .fcons k fl rest, f, v, g => by
    simp only [updateFM]
    by_cases hk : k = f
    · rw [if_pos hk]
      subst hk
      by_cases hg : g = k
      · subst hg
        simp [lookupFM]
      · have hkg : ¬ k = g := fun h => hg h.symm
        simp [lookupFM, hkg, hg]
    · rw [if_neg hk]
      by_cases hg : k = g
      · subst hg
        have hgf : ¬ k = f := hk
        simp [lookupFM, hgf]
      · simp [lookupFM, hg, hk, lookupFM_updateFM rest f v g]

theorem checkIncludePath_ok_iff (cls : SchemaCls) (p : String) :
    checkIncludePath cls p = .ok () ↔ goodFirst cls p = true := by
  simp only [checkIncludePath, goodFirst]
  cases h : lookupFM cls.fields (firstSeg p) with
  | none => simp
  | some fld =>
    cases hb : fld.isRel with
    | true => simp [hb]
    | false => simp [hb]

theorem checkIncludePath_err_ii (cls : SchemaCls) (p : String) (e : CsErr)
    (h : checkIncludePath cls p = .error e) : ∃ m, e = .invalidInclude m := by
  simp only [checkIncludePath] at h
  split at h
  · exact ⟨_, ((Except.error.injEq _ _).mp h).symm⟩
  · split at h
    · cases h
    · exact ⟨_, ((Except.error.injEq _ _).mp h).symm⟩

theorem validateIncludes_ok_iff (cls : SchemaCls) :
    ∀ l : List String, validateIncludes cls l = .ok () ↔ ∀ p ∈ l, goodFirst cls p = true
  | [] => by simp [validateIncludes]
  | p :: rest => by
    simp only [validateIncludes]
    cases hc : checkIncludePath cls p with
    | error e =>
      constructor
      · intro h
        cases h
      · intro h
        have := (checkIncludePath_ok_iff cls p).mpr (h p (by simp))
        rw [hc] at this
        cases this
    | ok u =>
      cases u
      have hg := (checkIncludePath_ok_iff cls p).mp hc
      rw [validateIncludes_ok_iff cls rest]
      constructor
      · intro h q hq
        rcases List.mem_cons.mp hq with hq | hq
        · exact hq ▸ hg
        · exact h q hq
      · intro h q hq
        exact h q (List.mem_cons_of_mem _ hq)

theorem validateIncludes_err_ii (cls : SchemaCls) :
    ∀ (l : List String) (e : CsErr), validateIncludes cls l = .error e →
      ∃ m, e = .invalidInclude m
  | [], e => by simp [validateIncludes]
  | p :: rest, e => by
    simp only [validateIncludes]
    cases hc : checkIncludePath cls p with
    | error e' =>
      intro h
      have he : e' = e := by
        cases h
        rfl
      exact he ▸ checkIncludePath_err_ii cls p e' hc
    | ok u =>
      cases u
      intro h
      exact validateIncludes_err_ii cls rest e h

theorem getRegisteredClass_err (env : Env) (n : String) (e : CsErr)
    (h : getRegisteredClass env n = .error e) : ∃ m, e = .registryError m := by
  simp only [getRegisteredClass] at h
  cases hl : lookupG env.registry n with
  | none =>
    rw [hl] at h
    exact ⟨_, ((Except.error.injEq _ _).mp h).symm⟩
  | some l =>
    rw [hl] at h
    match l, h with
    | [], h => exact ⟨_, ((Except.error.injEq _ _).mp h).symm⟩
    | [c], h => cases h
    | c1 :: c2 :: cs, h => exact ⟨_, ((Except.error.injEq _ _).mp h).symm⟩

theorem resolveCls_err (env : Env) (r : RelRef) (e : CsErr)
    (h : resolveCls env r = .error e) :
    e = .attrError ∨ ∃ m, e = .registryError m := by
  cases r with
  | noneRef =>
    left
    simp only [resolveCls] at h
    cases h
    rfl
  | clsRef c => cases h
  | regRef n => exact Or.inr (getRegisteredClass_err env n e h)
  | instRef c o ex m => cases h
  | computed s => cases h

theorem compute_schema_zero (env : Env) (cls : SchemaCls) (dk : SKwargs) (qs : QS)
    (ia : Option (List String)) :
    compute_schema env 0 cls dk qs ia = .error .outOfFuel := rfl

theorem compute_schema_succ (env : Env) (fuel : Nat) (cls : SchemaCls) (dk : SKwargs)
    (qs : QS) (ia : Option (List String)) :
    compute_schema env (fuel + 1) cls dk qs ia =
      match validateIncludes cls (incList ia) with
      | .error e => .error e
      | .ok _ =>
        match processIncludes env (fun c k i => compute_schema env fuel c k qs i)
            (dkAfter cls dk qs ia) (buildRelatedIncludes (incList ia))
            (buildGroups (dk.only.getD [])) (buildGroups (dk.exclude.getD []))
            (incList ia) cls.fields with
        | .error e => .error e
        | .ok ff =>
          .ok (CSchema.mk cls (dkAfter cls dk qs ia) ff, dkAfter cls dk qs ia) := rfl

theorem compute_schema_ok_inv {env : Env} {fuel : Nat} {cls : SchemaCls} {dk : SKwargs}
    {qs : QS} {ia : Option (List String)} {s : CSchema} {k : SKwargs}
    (h : compute_schema env (fuel + 1) cls dk qs ia = .ok (s, k)) :
    ∃ ff, validateIncludes cls (incList ia) = .ok () ∧
      processIncludes env (fun c kk i => compute_schema env fuel c kk qs i)
          (dkAfter cls dk qs ia) (buildRelatedIncludes (incList ia))
          (buildGroups (dk.only.getD [])) (buildGroups (dk.exclude.getD []))
          (incList ia) cls.fields = .ok ff ∧
      s = CSchema.mk cls (dkAfter cls dk qs ia) ff ∧ k = dkAfter cls dk qs ia := by
  rw [compute_schema_succ] at h
  cases hv : validateIncludes cls (incList ia) with
  | error e =>
    rw [hv] at h
    simp at h
  | ok u =>
    cases u
    rw [hv] at h
    cases hp : processIncludes env (fun c kk i => compute_schema env fuel c kk qs i)
        (dkAfter cls dk qs ia) (buildRelatedIncludes (incList ia))
        (buildGroups (dk.only.getD [])) (buildGroups (dk.exclude.getD []))
        (incList ia) cls.fields with
    | error e =>
      rw [hp] at h
      simp at h
    | ok ff =>
      rw [hp] at h
      simp only [Except.ok.injEq, Prod.mk.injEq] at h
      exact ⟨ff, rfl, rfl, h.1.symm, h.2.symm⟩

theorem compute_schema_fuel_succ {env : Env} {fuel : Nat} {cls : SchemaCls} {dk : SKwargs}
    {qs : QS} {ia : Option (List String)} {s : CSchema} {k : SKwargs}
    (h : compute_schema env fuel cls dk qs ia = .ok (s, k)) : ∃ f, fuel = f + 1 := by
  cases fuel with
  | zero => rw [compute_schema_zero] at h; cases h
  | succ f => exact ⟨f, rfl⟩

theorem compute_schema_none_ok (env : Env) (fuel : Nat) (cls : SchemaCls) (dk : SKwargs)
    (qs : QS) :
    compute_schema env (fuel + 1) cls dk qs none =
      .ok (CSchema.mk cls (dkAfter cls dk qs none) cls.fields, dkAfter cls dk qs none) := rfl

theorem compute_schema_none_not_ii (env : Env) (fuel : Nat) (cls : SchemaCls) (dk : SKwargs)
    (qs : QS) :
    invalidIncludeMsg (compute_schema env fuel cls dk qs none) = none := by
  cases fuel with
  | zero => rfl
  | succ f => rw [compute_schema_none_ok]; rfl

theorem dottedRemainders_append (f : String) (pre : List String) (p : String) :
    dottedRemainders f (pre ++ [p]) =
      dottedRemainders f pre ++
        (if firstSeg p = f ∧ hasDot p = true then [restSeg p] else []) := by
  induction pre with
  | nil =>
    simp only [List.nil_append]
    by_cases hc : firstSeg p = f ∧ hasDot p = true
    · rw [if_pos hc]
      simp [dottedRemainders, if_pos hc]
    · rw [if_neg hc]
      simp [dottedRemainders, if_neg hc]
  | cons q rest ih =>
    simp only [List.cons_append, dottedRemainders, List.append_eq]
    rw [ih]
    split <;> simp

theorem dottedRemainders_nil_of (f : String) :
    ∀ l : List String, (∀ q ∈ l, ¬(firstSeg q = f ∧ hasDot q = true)) →
      dottedRemainders f l = []
  | [], _ => rfl
  | q :: rest, h => by
    simp only [dottedRemainders]
    rw [if_neg (h q (List.mem_cons_self q rest))]
    exact dottedRemainders_nil_of f rest (fun r hr => h r (List.mem_cons_of_mem _ hr))

theorem dottedRemainders_ne_nil (f : String) (l : List String) (p : String)
    (hp : p ∈ l) (hf : firstSeg p = f) (hd : hasDot p = true) :
    dottedRemainders f l ≠ [] := by
  induction l with
  | nil => cases hp
  | cons q rest ih =>
    simp only [dottedRemainders]
    rcases List.mem_cons.mp hp with h | h
    · subst h
      rw [if_pos ⟨hf, hd⟩]
      simp
    · split
      · simp
      · exact ih h

theorem addInclude_invariant (pre : List String) (A : List (String × List String))
    (p : String)
    (hA : ∀ g, lookupG A g =
      if g ∈ pre.map firstSeg then some (dottedRemainders g pre) else none) :
    ∀ g, lookupG (addInclude A p) g =
      if g ∈ (pre ++ [p]).map firstSeg then some (dottedRemainders g (pre ++ [p]))
      else none := by
  intro g
  have hacc1 : ∀ g', lookupG (if (lookupG A (firstSeg p)).isSome then A
      else A ++ [(firstSeg p, [])]) g' =
      if g' ∈ pre.map firstSeg ∨ g' = firstSeg p
      then some (dottedRemainders g' pre) else none := by
    intro g'
    by_cases hmem : firstSeg p ∈ pre.map firstSeg
    · have : (lookupG A (firstSeg p)).isSome = true := by
        rw [hA (firstSeg p), if_pos hmem]
        rfl
      rw [if_pos this, hA g']
      by_cases hg' : g' ∈ pre.map firstSeg
      · rw [if_pos hg', if_pos (Or.inl hg')]
      · rw [if_neg hg']
        by_cases he : g' = firstSeg p
        · exact absurd (he ▸ hmem) hg'
        · rw [if_neg (by rintro (h | h) <;> [exact hg' h; exact he h])]
    · have : ¬ (lookupG A (firstSeg p)).isSome = true := by
        rw [hA (firstSeg p), if_neg hmem]
        simp
      rw [if_neg this, lookupG_append, hA g']
      by_cases hg' : g' ∈ pre.map firstSeg
      · rw [if_pos hg', if_pos (Or.inl hg')]
      · rw [if_neg hg']
        by_cases he : g' = firstSeg p
        · subst he
          rw [if_pos rfl, if_pos (Or.inr rfl),
            dottedRemainders_nil_of (firstSeg p) pre
              (fun q hq hc => hg' (hc.1 ▸ List.mem_map_of_mem firstSeg hq))]
        · rw [if_neg (fun h => he h.symm),
            if_neg (by rintro (h | h) <;> [exact hg' h; exact he h])]
  have hmemApp : g ∈ (pre ++ [p]).map firstSeg ↔
      (g ∈ pre.map firstSeg ∨ g = firstSeg p) := by
    simp
  simp only [addInclude]
  by_cases hd : hasDot p = true
  · rw [if_pos hd, appendG_lookup]
    by_cases hg : g = firstSeg p
    · subst hg
      rw [if_pos rfl, hacc1 (firstSeg p), if_pos (Or.inr rfl),
        if_pos (hmemApp.mpr (Or.inr rfl)),
        dottedRemainders_append (firstSeg p) pre p, if_pos ⟨rfl, hd⟩]
      rfl
    · rw [if_neg hg, hacc1 g, dottedRemainders_append g pre p,
        if_neg (fun hc : firstSeg p = g ∧ hasDot p = true => hg hc.1.symm),
        List.append_nil]
      by_cases hgp : g ∈ pre.map firstSeg
      · rw [if_pos (Or.inl hgp), if_pos (hmemApp.mpr (Or.inl hgp))]
      · rw [if_neg (by rintro (h | h); exacts [hgp h, hg h]),
          if_neg (fun h => by rcases hmemApp.mp h with h | h; exacts [hgp h, hg h])]
  · rw [if_neg hd, hacc1 g, dottedRemainders_append g pre p,
      if_neg (fun hc : firstSeg p = g ∧ hasDot p = true => hd hc.2), List.append_nil]
    by_cases hg : g ∈ pre.map firstSeg ∨ g = firstSeg p
    · rw [if_pos hg, if_pos (hmemApp.mpr hg)]
    · rw [if_neg hg, if_neg (fun h => hg (hmemApp.mp h))]

theorem buildRelatedIncludes_aux :
    ∀ (l pre : List String) (A : List (String × List String)),
      (∀ g, lookupG A g =
        if g ∈ pre.map firstSeg then some (dottedRemainders g pre) else none) →
      ∀ g, lookupG (l.foldl addInclude A) g =
        if g ∈ (pre ++ l).map firstSeg then some (dottedRemainders g (pre ++ l)) else none
  | [], pre, A, hA, g => by simpa using hA g
  | p :: rest, pre, A, hA, g => by
    simp only [List.foldl_cons]
    have h := buildRelatedIncludes_aux rest (pre ++ [p]) (addInclude A p)
      (addInclude_invariant pre A p hA) g
    simpa [List.append_assoc] using h

theorem buildRelatedIncludes_lookup (inc : List String) (g : String) :
    lookupG (buildRelatedIncludes inc) g =
      if g ∈ inc.map firstSeg then some (dottedRemainders g inc) else none := by
  have h := buildRelatedIncludes_aux inc [] []
    (fun g' => by simp [lookupG, dottedRemainders]) g
  simpa [buildRelatedIncludes] using h

theorem processIncludes_cons_ok {env : Env}
    {recurse : SchemaCls → SKwargs → Option (List String) → Except CsErr (CSchema × SKwargs)}
    {dk : SKwargs} {relInc relOnly relExcl : List (String × List String)}
    {p : String} {rest : List String} {fields fields' : FieldMap}
    (h : processIncludes env recurse dk relInc relOnly relExcl (p :: rest) fields
      = .ok fields') :
    ∃ fields1, includeStep env recurse dk relInc relOnly relExcl fields p = .ok fields1 ∧
      processIncludes env recurse dk relInc relOnly relExcl rest fields1 = .ok fields' := by
  simp only [processIncludes] at h
  cases hs : includeStep env recurse dk relInc relOnly relExcl fields p with
  | error e =>
    rw [hs] at h
    exact Except.noConfusion h
  | ok fields1 =>
    rw [hs] at h
    exact ⟨fields1, rfl, h⟩

theorem includeStep_ok_inv {env : Env}
    {recurse : SchemaCls → SKwargs → Option (List String) → Except CsErr (CSchema × SKwargs)}
    {dk : SKwargs} {relInc relOnly relExcl : List (String × List String)}
    {fields : FieldMap} {p : String} {fields1 : FieldMap}
    (h : includeStep env recurse dk relInc relOnly relExcl fields p = .ok fields1) :
    ∃ fld rcls s' k',
      lookupFM fields (firstSeg p) = some fld ∧
      resolveCls env fld.rel = .ok rcls ∧
      recurse rcls (mkRelatedKwargs dk fld relOnly relExcl (firstSeg p))
        (optOf ((lookupG relInc (firstSeg p)).getD [])) = .ok (s', k') ∧
      fields1 = updateFM fields (firstSeg p) (fld.withRel (.computed s')) := by
  simp only [includeStep] at h
  split at h
  · exact Except.noConfusion h
  · rename_i fld hl
    split at h
    · exact Except.noConfusion h
    · rename_i rcls hr
      split at h
      · exact Except.noConfusion h
      · rename_i s' k' hrec
        exact ⟨fld, rcls, s', k', hl, hr, hrec, ((Except.ok.injEq _ _).mp h).symm⟩

theorem includeStep_err_not_ii {env : Env}
    {recurse : SchemaCls → SKwargs → Option (List String) → Except CsErr (CSchema × SKwargs)}
    {dk : SKwargs} {relInc relOnly relExcl : List (String × List String)}
    {fields : FieldMap} {p : String} {e : CsErr}
    (hrec : ∀ c kk m', recurse c kk none ≠ .error (.invalidInclude m'))
    (hginc : ∀ f ts, lookupG relInc f = some ts → ts = [])
    (h : includeStep env recurse dk relInc relOnly relExcl fields p = .error e) :
    ∀ m, e ≠ .invalidInclude m := by
  have hnone : optOf ((lookupG relInc (firstSeg p)).getD []) = none := by
    cases hts : lookupG relInc (firstSeg p) with
    | none => rfl
    | some ts => rw [hginc (firstSeg p) ts hts]; rfl
  simp only [includeStep] at h
  split at h
  · intro m hm
    rw [hm] at h
    have := (Except.error.injEq _ _).mp h
    cases this
  · rename_i fld hl
    split at h
    · rename_i e' hr
      intro m hm
      have he : e' = e := (Except.error.injEq _ _).mp h
      rcases resolveCls_err env fld.rel e' hr with h1 | ⟨m2, h2⟩
      · rw [he, hm] at h1
        cases h1
      · rw [he, hm] at h2
        cases h2
    · rename_i rcls hr
      split at h
      · rename_i e' hrec2
        intro m hm
        have he : e' = e := (Except.error.injEq _ _).mp h
        rw [hnone] at hrec2
        rw [he, hm] at hrec2
        exact hrec rcls (mkRelatedKwargs dk fld relOnly relExcl (firstSeg p)) m hrec2
      · rename_i s' k' hrec2
        exact Except.noConfusion h

theorem processIncludes_frame (env : Env)
    (recurse : SchemaCls → SKwargs → Option (List String) → Except CsErr (CSchema × SKwargs))
    (dk : SKwargs) (relInc relOnly relExcl : List (String × List String)) :
    ∀ (paths : List String) (fields fields' : FieldMap),
      processIncludes env recurse dk relInc relOnly relExcl paths fields = .ok fields' →
      ∀ g, g ∉ paths.map firstSeg → lookupFM fields' g = lookupFM fields g
  | [], fields, fields', h, g, _ => by
    cases h
    rfl
  | p :: rest, fields, fields', h, g, hg => by
    obtain ⟨fields1, hs, h2⟩ := processIncludes_cons_ok h
    obtain ⟨fld, rcls, s', k', hl, hr, hrec, hup⟩ := includeStep_ok_inv hs
    have ih := processIncludes_frame env recurse dk relInc relOnly relExcl rest fields1
      fields' h2 g (fun hx => hg (by simp [hx]))
    rw [ih, hup, lookupFM_updateFM,
      if_neg (fun hx : g = firstSeg p => hg (by simp [hx]))]

theorem fieldStateOf_update (fields : FieldMap) (f0 g : String) (fld : MField)
    (sNew : CSchema) (fld0 : MField)
    (hl : lookupFM fields f0 = some fld)
    (h : FieldStateOf (updateFM fields f0 (fld.withRel (.computed sNew))) g fld0) :
    FieldStateOf fields g fld0 := by
  obtain ⟨fo1, hlo1, hcase⟩ := h
  rw [lookupFM_updateFM] at hlo1
  by_cases hg : g = f0
  · rw [if_pos hg] at hlo1
    subst hg
    rw [hl] at hlo1
    have hfo : fld.withRel (.computed sNew) = fo1 := (Option.some.injEq _ _).mp hlo1
    refine ⟨fld, hl, Or.inr ?_⟩
    rcases hcase with hcase | ⟨sPrev, hcase⟩
    · exact ⟨sNew, by rw [hcase, ← hfo]⟩
    · exact ⟨sPrev, by rw [hcase, ← hfo, withRel_withRel]⟩
  · rw [if_neg hg] at hlo1
    exact ⟨fo1, hlo1, hcase⟩

theorem processIncludes_spec (env : Env)
    (recurse : SchemaCls → SKwargs → Option (List String) → Except CsErr (CSchema × SKwargs))
    (dk : SKwargs) (relInc relOnly relExcl : List (String × List String)) :
    ∀ (paths : List String) (fields fields' : FieldMap),
      processIncludes env recurse dk relInc relOnly relExcl paths fields = .ok fields' →
      ∀ p ∈ paths, ∃ fld0 rcls s' k',
        FieldStateOf fields (firstSeg p) fld0 ∧
        lookupFM fields' (firstSeg p) = some (fld0.withRel (.computed s')) ∧
        resolveCls env fld0.rel = .ok rcls ∧
        recurse rcls (mkRelatedKwargs dk fld0 relOnly relExcl (firstSeg p))
          (optOf ((lookupG relInc (firstSeg p)).getD [])) = .ok (s', k')
  | [], _, _, _, p, hp => absurd hp (List.not_mem_nil p)
  | q :: rest, fields, fields', h, p, hp => by
    obtain ⟨fields1, hs, h2⟩ := processIncludes_cons_ok h
    obtain ⟨fld, rcls, s', k', hl, hr, hrec, hup⟩ := includeStep_ok_inv hs
    rcases List.mem_cons.mp hp with hpq | hpr
    · subst hpq
      by_cases hmem : firstSeg p ∈ rest.map firstSeg
      · obtain ⟨r, hrmem, hrfs⟩ := List.mem_map.mp hmem
        have hres := processIncludes_spec env recurse dk relInc relOnly relExcl rest
          fields1 fields' h2 r hrmem
        rw [hrfs] at hres
        obtain ⟨fld0, rcls2, s2, k2, horig, hlk, hr2, hrec2⟩ := hres
        refine ⟨fld0, rcls2, s2, k2, ?_, hlk, hr2, hrec2⟩
        rw [hup] at horig
        exact fieldStateOf_update fields (firstSeg p) (firstSeg p) fld s' fld0 hl horig
      · have hfr := processIncludes_frame env recurse dk relInc relOnly relExcl rest
          fields1 fields' h2 (firstSeg p) hmem
        refine ⟨fld, rcls, s', k', ⟨fld, hl, Or.inl rfl⟩, ?_, hr, hrec⟩
        rw [hfr, hup, lookupFM_updateFM, if_pos rfl, hl]
        rfl
    · have hres := processIncludes_spec env recurse dk relInc relOnly relExcl rest
        fields1 fields' h2 p hpr
      obtain ⟨fld0, rcls2, s2, k2, horig, hlk, hr2, hrec2⟩ := hres
      refine ⟨fld0, rcls2, s2, k2, ?_, hlk, hr2, hrec2⟩
      rw [hup] at horig
      exact fieldStateOf_update fields (firstSeg q) (firstSeg p) fld s' fld0 hl horig

theorem processIncludes_not_ii (env : Env)
    (recurse : SchemaCls → SKwargs → Option (List String) → Except CsErr (CSchema × SKwargs))
    (dk : SKwargs) (relInc relOnly relExcl : List (String × List String))
    (hrec : ∀ c kk m', recurse c kk none ≠ .error (.invalidInclude m'))
    (hginc : ∀ f ts, lookupG relInc f = some ts → ts = []) :
    ∀ (paths : List String) (fields : FieldMap) (m : String),
      processIncludes env recurse dk relInc relOnly relExcl paths fields
        ≠ .error (.invalidInclude m)
  | [], fields, m => by
    intro h
    cases h
  | p :: rest, fields, m => by
    intro h
    simp only [processIncludes] at h
    cases hs : includeStep env recurse dk relInc relOnly relExcl fields p with
    | error e =>
      rw [hs] at h
      have he : e = .invalidInclude m := (Except.error.injEq _ _).mp h
      exact includeStep_err_not_ii hrec hginc hs m he
    | ok fields1 =>
      rw [hs] at h
      exact processIncludes_not_ii env recurse dk relInc relOnly relExcl hrec hginc
        rest fields1 m h

theorem containsStr_iff (l : List String) (x : String) : l.contains x = true ↔ x ∈ l :=
  List.elem_iff

theorem mem_listInter {declared qsf : List String} {only0 : Option (List String)}
    {x : String} :
    x ∈ listInter declared qsf only0 ↔
      (x ∈ declared ∧ x ∈ qsf ∧ ∀ oo, only0 = some oo → x ∈ oo) := by
  cases only0 with
  | none =>
    simp only [listInter, List.mem_filter, containsStr_iff]
    constructor
    · rintro ⟨h1, h2⟩
      exact ⟨h1, h2, fun oo hoo => by cases hoo⟩
    · rintro ⟨h1, h2, _⟩
      exact ⟨h1, h2⟩
  | some o =>
    simp only [listInter, List.mem_filter, containsStr_iff]
    constructor
    · rintro ⟨⟨h1, h2⟩, h3⟩
      exact ⟨h1, h2, fun oo hoo => by cases hoo; exact h3⟩
    · rintro ⟨h1, h2, h3⟩
      exact ⟨⟨h1, h2⟩, h3 o rfl⟩

theorem withId_some_mem_id {o : Option (List String)} {l : List String}
    (h : withId o = some l) : "id" ∈ l := by
  cases o with
  | none => cases h
  | some l0 =>
    simp only [withId] at h
    by_cases hc : l0.contains "id" = true
    · rw [if_pos hc] at h
      cases h
      exact (containsStr_iff _ _).mp hc
    · rw [if_neg hc] at h
      cases h
      simp

theorem mem_withId_some {l0 l : List String} {x : String}
    (h : withId (some l0) = some l) : x ∈ l ↔ x ∈ l0 ∨ x = "id" := by
  simp only [withId] at h
  by_cases hc : l0.contains "id" = true
  · rw [if_pos hc] at h
    cases h
    constructor
    · exact Or.inl
    · rintro (h1 | h1)
      · exact h1
      · exact h1 ▸ (containsStr_iff _ _).mp hc
  · rw [if_neg hc] at h
    cases h
    simp

theorem computeOnly_some_mem_id {cls : SchemaCls} {qs : QS} {only0 : Option (List String)}
    {l : List String} (h : computeOnly cls qs only0 = some l) : "id" ∈ l := by
  simp only [computeOnly] at h
  cases hq : lookupG qs.fields cls.type_ with
  | some qsf =>
    rw [hq] at h
    exact withId_some_mem_id h
  | none =>
    rw [hq] at h
    exact withId_some_mem_id h

theorem computeOnly_sparse {cls : SchemaCls} {qs : QS} {only0 : Option (List String)}
    {qsf : List String} (hq : lookupG qs.fields cls.type_ = some qsf) :
    ∃ l, computeOnly cls qs only0 = some l ∧
      ∀ x, x ∈ l ↔
        (x ∈ fmKeys cls.fields ∧ x ∈ qsf ∧ (∀ oo, only0 = some oo → x ∈ oo)) ∨
        x = "id" := by
  obtain ⟨l, hl⟩ : ∃ l,
      withId (some (listInter (fmKeys cls.fields) qsf only0)) = some l := by
    simp only [withId]
    split
    · exact ⟨_, rfl⟩
    · exact ⟨_, rfl⟩
  refine ⟨l, ?_, ?_⟩
  · simp only [computeOnly, hq]
    exact hl
  · intro x
    rw [mem_withId_some hl, mem_listInter]

theorem FShape_refl (env : Env) : ∀ fm, FShape env fm fm
  | .fnil => trivial
  | .fcons _ _ r => ⟨rfl, rfl, FShape_refl env r⟩

theorem FShape_lookup_none (env : Env) : ∀ (fm1 fm2 : FieldMap) (g : String),
    FShape env fm1 fm2 → lookupFM fm1 g = none → lookupFM fm2 g = none
  | .fnil, .fnil, g, _, _ => rfl
  | .fnil, .fcons _ _ _, _, hsh, _ => hsh.elim
  | .fcons _ _ _, .fnil, _, hsh, _ => hsh.elim
  | .fcons k1 f1 r1, .fcons k2 f2 r2, g, hsh, hl => by
    obtain ⟨hk, hres, hrest⟩ := hsh
    subst hk
    simp only [lookupFM] at hl ⊢
    by_cases hg : k1 = g
    · rw [if_pos hg] at hl
      cases hl
    · rw [if_neg hg] at hl
      rw [if_neg hg]
      exact FShape_lookup_none env r1 r2 g hrest hl

theorem FShape_lookup_some (env : Env) : ∀ (fm1 fm2 : FieldMap) (g : String) (f1 : MField),
    FShape env fm1 fm2 → lookupFM fm1 g = some f1 →
      ∃ f2, lookupFM fm2 g = some f2 ∧ resolveCls env f1.rel = resolveCls env f2.rel
  | .fnil, _, _, _, _, hl => by cases hl
  | .fcons _ _ _, .fnil, _, _, hsh, _ => hsh.elim
  | .fcons k1 g1 r1, .fcons k2 g2 r2, g, f1, hsh, hl => by
    obtain ⟨hk, hres, hrest⟩ := hsh
    subst hk
    simp only [lookupFM] at hl ⊢
    by_cases hg : k1 = g
    · rw [if_pos hg] at hl
      cases hl
      exact ⟨g2, by rw [if_pos hg], hres⟩
    · rw [if_neg hg] at hl
      rw [if_neg hg]
      exact FShape_lookup_some env r1 r2 g f1 hrest hl

theorem FShape_update (env : Env) : ∀ (fm1 fm2 : FieldMap) (g : String) (v1 v2 : MField),
    FShape env fm1 fm2 → resolveCls env v1.rel = resolveCls env v2.rel →
      FShape env (updateFM fm1 g v1) (updateFM fm2 g v2)
  | .fnil, .fnil, _, _, _, _, _ => trivial
  | .fnil, .fcons _ _ _, _, _, _, hsh, _ => hsh.elim
  | .fcons _ _ _, .fnil, _, _, _, hsh, _ => hsh.elim
  | .fcons k1 f1 r1, .fcons k2 f2 r2, g, v1, v2, hsh, hv => by
    obtain ⟨hk, hres, hrest⟩ := hsh
    subst hk
    simp only [updateFM]
    by_cases hg : k1 = g
    · rw [if_pos hg, if_pos hg]
      exact ⟨rfl, hv, hrest⟩
    · rw [if_neg hg, if_neg hg]
      exact ⟨rfl, hres, FShape_update env r1 r2 g v1 v2 hrest hv⟩

theorem cs_ok_cls (env : Env) (fuel : Nat) (cls : SchemaCls) (dk : SKwargs) (qs : QS)
    (ia : Option (List String)) (s : CSchema) (k : SKwargs)
    (h : compute_schema env fuel cls dk qs ia = .ok (s, k)) : s.cls = cls := by
  obtain ⟨f', hf⟩ := compute_schema_fuel_succ h
  subst hf
  obtain ⟨ff, hv, hp, hs, hk⟩ := compute_schema_ok_inv h
  rw [hs]
  rfl

theorem pi_err_indep (env : Env)
    (recurse1 recurse2 : SchemaCls → SKwargs → Option (List String) → Except CsErr (CSchema × SKwargs))
    (dk1 dk2 : SKwargs)
    (relInc relOnly1 relExcl1 relOnly2 relExcl2 : List (String × List String))
    (hrec12 : ∀ c kk1 kk2 i e, recurse1 c kk1 i = .error e → recurse2 c kk2 i = .error e)
    (hrec21 : ∀ c kk1 kk2 i e, recurse2 c kk2 i = .error e → recurse1 c kk1 i = .error e)
    (hcls1 : ∀ c kk i s k, recurse1 c kk i = .ok (s, k) → s.cls = c)
    (hcls2 : ∀ c kk i s k, recurse2 c kk i = .ok (s, k) → s.cls = c) :
    ∀ (paths : List String) (fm1 fm2 : FieldMap) (e : CsErr), FShape env fm1 fm2 →
      processIncludes env recurse1 dk1 relInc relOnly1 relExcl1 paths fm1 = .error e →
      processIncludes env recurse2 dk2 relInc relOnly2 relExcl2 paths fm2 = .error e
  | [], fm1, fm2, e, _, h => by cases h
  | p :: rest, fm1, fm2, e, hsh, h => by
    cases hl1 : lookupFM fm1 (firstSeg p) with
    | none =>
      have hl2 := FShape_lookup_none env fm1 fm2 (firstSeg p) hsh hl1
      have h1 : includeStep env recurse1 dk1 relInc relOnly1 relExcl1 fm1 p
          = .error .keyError := by
        simp only [includeStep, hl1]
      have h2 : includeStep env recurse2 dk2 relInc relOnly2 relExcl2 fm2 p
          = .error .keyError := by
        simp only [includeStep, hl2]
      have hpe : processIncludes env recurse1 dk1 relInc relOnly1 relExcl1 (p :: rest) fm1
          = .error .keyError := by
        simp only [processIncludes, h1]
      rw [hpe] at h
      have he : CsErr.keyError = e := (Except.error.injEq _ _).mp h
      rw [← he]
      simp only [processIncludes, h2]
    | some f1 =>
      obtain ⟨f2, hl2, hres⟩ := FShape_lookup_some env fm1 fm2 (firstSeg p) f1 hsh hl1
      cases hr1 : resolveCls env f1.rel with
      | error er =>
        have hr2 : resolveCls env f2.rel = .error er := by rw [← hres, hr1]
        have h1 : includeStep env recurse1 dk1 relInc relOnly1 relExcl1 fm1 p
            = .error er := by
          simp only [includeStep, hl1, hr1]
        have h2 : includeStep env recurse2 dk2 relInc relOnly2 relExcl2 fm2 p
            = .error er := by
          simp only [includeStep, hl2, hr2]
        have hpe : processIncludes env recurse1 dk1 relInc relOnly1 relExcl1 (p :: rest) fm1
            = .error er := by
          simp only [processIncludes, h1]
        rw [hpe] at h
        have he : er = e := (Except.error.injEq _ _).mp h
        rw [← he]
        simp only [processIncludes, h2]
      | ok rc =>
        have hr2 : resolveCls env f2.rel = .ok rc := by rw [← hres, hr1]
        cases hrec : recurse1 rc (mkRelatedKwargs dk1 f1 relOnly1 relExcl1 (firstSeg p))
            (optOf ((lookupG relInc (firstSeg p)).getD [])) with
        | error er =>
          have hrecB := hrec12 rc (mkRelatedKwargs dk1 f1 relOnly1 relExcl1 (firstSeg p))
            (mkRelatedKwargs dk2 f2 relOnly2 relExcl2 (firstSeg p)) _ er hrec
          have h1 : includeStep env recurse1 dk1 relInc relOnly1 relExcl1 fm1 p
              = .error er := by
            simp only [includeStep, hl1, hr1, hrec]
          have h2 : includeStep env recurse2 dk2 relInc relOnly2 relExcl2 fm2 p
              = .error er := by
            simp only [includeStep, hl2, hr2, hrecB]
          have hpe : processIncludes env recurse1 dk1 relInc relOnly1 relExcl1 (p :: rest) fm1
              = .error er := by
            simp only [processIncludes, h1]
          rw [hpe] at h
          have he : er = e := (Except.error.injEq _ _).mp h
          rw [← he]
          simp only [processIncludes, h2]
        | ok pr1 =>
          obtain ⟨s1, k1⟩ := pr1
          cases hrec2 : recurse2 rc (mkRelatedKwargs dk2 f2 relOnly2 relExcl2 (firstSeg p))
              (optOf ((lookupG relInc (firstSeg p)).getD [])) with
          | error er2 =>
            have hcontra := hrec21 rc (mkRelatedKwargs dk1 f1 relOnly1 relExcl1 (firstSeg p))
              (mkRelatedKwargs dk2 f2 relOnly2 relExcl2 (firstSeg p)) _ er2 hrec2
            rw [hrec] at hcontra
            cases hcontra
          | ok pr2 =>
            obtain ⟨s2, k2⟩ := pr2
            have h1 : includeStep env recurse1 dk1 relInc relOnly1 relExcl1 fm1 p
                = .ok (updateFM fm1 (firstSeg p) (f1.withRel (.computed s1))) := by
              simp only [includeStep, hl1, hr1, hrec]
            have h2 : includeStep env recurse2 dk2 relInc relOnly2 relExcl2 fm2 p
                = .ok (updateFM fm2 (firstSeg p) (f2.withRel (.computed s2))) := by
              simp only [includeStep, hl2, hr2, hrec2]
            have hstep1 : processIncludes env recurse1 dk1 relInc relOnly1 relExcl1
                (p :: rest) fm1
                = processIncludes env recurse1 dk1 relInc relOnly1 relExcl1 rest
                  (updateFM fm1 (firstSeg p) (f1.withRel (.computed s1))) := by
              simp only [processIncludes, h1]
            rw [hstep1] at h
            have hshape2 : FShape env
                (updateFM fm1 (firstSeg p) (f1.withRel (.computed s1)))
                (updateFM fm2 (firstSeg p) (f2.withRel (.computed s2))) := by
              apply FShape_update env fm1 fm2 (firstSeg p) _ _ hsh
              rw [withRel_rel, withRel_rel]
              simp only [resolveCls]
              rw [hcls1 rc (mkRelatedKwargs dk1 f1 relOnly1 relExcl1 (firstSeg p)) _ s1 k1 hrec,
                hcls2 rc (mkRelatedKwargs dk2 f2 relOnly2 relExcl2 (firstSeg p)) _ s2 k2 hrec2]
            have hrest := pi_err_indep env recurse1 recurse2 dk1 dk2 relInc relOnly1
              relExcl1 relOnly2 relExcl2 hrec12 hrec21 hcls1 hcls2 rest
              (updateFM fm1 (firstSeg p) (f1.withRel (.computed s1)))
              (updateFM fm2 (firstSeg p) (f2.withRel (.computed s2))) e hshape2 h
            simp only [processIncludes, h2]
            exact hrest

theorem cs_err_indep (env : Env) : ∀ (fuel : Nat) (cls : SchemaCls)
    (ia : Option (List String)) (dk dk' : SKwargs) (qs qs' : QS) (e : CsErr),
    compute_schema env fuel cls dk qs ia = .error e →
    compute_schema env fuel cls dk' qs' ia = .error e
  | 0, cls, ia, dk, dk', qs, qs', e, h => by
    rw [compute_schema_zero] at h
    rw [compute_schema_zero]
    exact h
  | fuel + 1, cls, ia, dk, dk', qs, qs', e, h => by
    rw [compute_schema_succ] at h
    rw [compute_schema_succ]
    cases hv : validateIncludes cls (incList ia) with
    | error ev =>
      rw [hv] at h
      exact h
    | ok u =>
      cases u
      rw [hv] at h
      cases hp1 : processIncludes env (fun c kk i => compute_schema env fuel c kk qs i)
          (dkAfter cls dk qs ia) (buildRelatedIncludes (incList ia))
          (buildGroups (dk.only.getD [])) (buildGroups (dk.exclude.getD []))
          (incList ia) cls.fields with
      | ok ff1 =>
        rw [hp1] at h
        exact Except.noConfusion h
      | error ep =>
        rw [hp1] at h
        have he : ep = e := (Except.error.injEq _ _).mp h
        subst he
        have hp2 : processIncludes env (fun c kk i => compute_schema env fuel c kk qs' i)
            (dkAfter cls dk' qs' ia) (buildRelatedIncludes (incList ia))
            (buildGroups (dk'.only.getD [])) (buildGroups (dk'.exclude.getD []))
            (incList ia) cls.fields = .error ep :=
          pi_err_indep env (fun c kk i => compute_schema env fuel c kk qs i)
            (fun c kk i => compute_schema env fuel c kk qs' i)
            (dkAfter cls dk qs ia) (dkAfter cls dk' qs' ia)
            (buildRelatedIncludes (incList ia))
            (buildGroups (dk.only.getD [])) (buildGroups (dk.exclude.getD []))
            (buildGroups (dk'.only.getD [])) (buildGroups (dk'.exclude.getD []))
            (fun c kk1 kk2 i e' hh => cs_err_indep env fuel c i kk1 kk2 qs qs' e' hh)
            (fun c kk1 kk2 i e' hh => cs_err_indep env fuel c i kk2 kk1 qs' qs e' hh)
            (fun c kk i s k hh => cs_ok_cls env fuel c kk qs i s k hh)
            (fun c kk i s k hh => cs_ok_cls env fuel c kk qs' i s k hh)
            (incList ia) cls.fields cls.fields ep (FShape_refl env cls.fields) hp1
        rw [hp2]

/-- C3: for every successful call of `compute_schema`, the schema is
constructed with `include_data` equal to the tuple of the first
dot-separated segments of the include paths in order; for an empty or
`None` include list it is the empty tuple. -/
theorem C3_include_data (env : Env) (fuel : Nat) (cls : SchemaCls) (dk : SKwargs)
    (qs : QS) (ia : Option (List String)) (s : CSchema) (k : SKwargs)
    (h : compute_schema env fuel cls dk qs ia = .ok (s, k)) :
    s.kwargs.includeData = (incList ia).map firstSeg := by
  obtain ⟨f', hf⟩ := compute_schema_fuel_succ h
  subst hf
  obtain ⟨ff, hv, hp, hs, hk⟩ := compute_schema_ok_inv h
  rw [hs]
  rfl

/-- C3 witness at a concrete schema class and include list. -/
theorem C3_witness :
    ∃ s k, compute_schema envT 2 clsPerson {} qsE (some ["tags"]) = .ok (s, k) ∧
      s.kwargs.includeData = ["tags"] := by
  obtain ⟨⟨s, k⟩, h⟩ := exists_ok_of_isOk
    (compute_schema envT 2 clsPerson {} qsE (some ["tags"])) (by decide)
  refine ⟨s, k, h, ?_⟩
  rw [C3_include_data envT 2 clsPerson {} qsE (some ["tags"]) s k h]
  decide

/-- C9: whenever a successful `compute_schema` call constructs its schema
with a non-`None` `only` value, that value contains the field name `"id"`
(lines 71-73 append it when absent). -/
theorem C9_only_contains_id (env : Env) (fuel : Nat) (cls : SchemaCls) (dk : SKwargs)
    (qs : QS) (ia : Option (List String)) (s : CSchema) (k : SKwargs) (l : List String)
    (h : compute_schema env fuel cls dk qs ia = .ok (s, k))
    (hl : s.kwargs.only = some l) : "id" ∈ l := by
  obtain ⟨f', hf⟩ := compute_schema_fuel_succ h
  subst hf
  obtain ⟨ff, hv, hp, hs, hk⟩ := compute_schema_ok_inv h
  rw [hs] at hl
  exact computeOnly_some_mem_id hl

/-- C9 witness at a concrete sparse-fieldset request. -/
theorem C9_witness :
    ∃ s k l, compute_schema envT 2 clsPerson {} qsPeople none = .ok (s, k) ∧
      s.kwargs.only = some l ∧ "id" ∈ l := by
  obtain ⟨⟨s, k⟩, h⟩ := exists_ok_of_isOk
    (compute_schema envT 2 clsPerson {} qsPeople none) (by decide)
  have hro : resultOnly (compute_schema envT 2 clsPerson {} qsPeople none)
      = some (some ["name", "id"]) := by decide
  rw [h] at hro
  simp only [resultOnly] at hro
  have hl : s.kwargs.only = some ["name", "id"] := (Option.some.injEq _ _).mp hro
  exact ⟨s, k, _, h, hl,
    C9_only_contains_id envT 2 clsPerson {} qsPeople none s k _ h hl⟩

/-- C4 counterexample: `compute_schema` mutates the caller's
`default_kwargs` (line 23 aliases it, lines 24/44/87 write through the
alias): starting from an empty dict, after a successful call the dict
holds the computed `include_data` tuple, so it is not the same dictionary
value as before the call, refuting the claim that `default_kwargs` is
unchanged. -/
theorem C4_counterexample :
    resultKwargs (compute_schema envT 2 clsPerson {} qsE (some ["tags"]))
      = some { includeData := ["tags"] } ∧
    ({ includeData := ["tags"] } : SKwargs) ≠ ({} : SKwargs) := by
  exact ⟨by decide, by decide⟩

/-- C4 (amended): after a successful call, the caller's `default_kwargs`
differs from its original value exactly in the `include_data` and `only`
entries (set to the computed values); `exclude`, `context` and `many` are
unchanged.  The schema class's declared field objects are untouched: the
constructor deep-copies `_declared_fields`, and line 135 writes to the
instance copy only (in this embedding schema classes are immutable values
and the write is the functional `updateFM` on the instance's map). -/
theorem C4_kwargs_mutation (env : Env) (fuel : Nat) (cls : SchemaCls) (dk : SKwargs)
    (qs : QS) (ia : Option (List String)) (s : CSchema) (k : SKwargs)
    (h : compute_schema env fuel cls dk qs ia = .ok (s, k)) :
    k = { dk with includeData := (incList ia).map firstSeg, only := s.kwargs.only } := by
  obtain ⟨f', hf⟩ := compute_schema_fuel_succ h
  subst hf
  obtain ⟨ff, hv, hp, hs, hk⟩ := compute_schema_ok_inv h
  rw [hs, hk]
  rfl

/-- C4 witness at a concrete call. -/
theorem C4_witness :
    ∃ s k, compute_schema envT 2 clsPerson {} qsE (some ["tags"]) = .ok (s, k) ∧
      k = { ({} : SKwargs) with includeData := ["tags"], only := s.kwargs.only } := by
  obtain ⟨⟨s, k⟩, h⟩ := exists_ok_of_isOk
    (compute_schema envT 2 clsPerson {} qsE (some ["tags"])) (by decide)
  refine ⟨s, k, h, ?_⟩
  rw [C4_kwargs_mutation envT 2 clsPerson {} qsE (some ["tags"]) s k h,
    show (incList (some ["tags"])).map firstSeg = ["tags"] from by decide]

/-- C2 counterexample: with declared fields `id, name, tags`, sparse
fieldset `["name"]` for the matching type and no pre-existing `only`, the
`only` value passed to the constructor is `("name", "id")`, which contains
`"id"` although `"id"` is not in the intersection of the declared field
names with the requested sparse fieldset — so the constructed `only` is
not that intersection, refuting the claim. -/
theorem C2_counterexample :
    resultOnly (compute_schema envT 2 clsPerson {} qsPeople none)
      = some (some ["name", "id"]) ∧
    "id" ∈ (["name", "id"] : List String) ∧
    "id" ∉ listInter (fmKeys clsPerson.fields) ["name"] none := by
  exact ⟨by decide, by decide, by decide⟩

/-- C2 (amended): when the schema class's `Meta.type_` has a sparse
fieldset in `qs.fields`, the `only` value passed to the constructor is
(as a set) the intersection of the declared field names with the
requested sparse fieldset, further intersected with the pre-existing
`only` from `default_kwargs` when that is not `None`, together with
`"id"`, which lines 71-73 append when absent. -/
theorem C2_sparse_only (env : Env) (fuel : Nat) (cls : SchemaCls) (dk : SKwargs)
    (qs : QS) (ia : Option (List String)) (s : CSchema) (k : SKwargs) (qsf : List String)
    (h : compute_schema env fuel cls dk qs ia = .ok (s, k))
    (hq : lookupG qs.fields cls.type_ = some qsf) :
    ∃ l, s.kwargs.only = some l ∧
      ∀ x, x ∈ l ↔
        (x ∈ fmKeys cls.fields ∧ x ∈ qsf ∧ (∀ oo, dk.only = some oo → x ∈ oo)) ∨
        x = "id" := by
  obtain ⟨f', hf⟩ := compute_schema_fuel_succ h
  subst hf
  obtain ⟨ff, hv, hp, hs, hk⟩ := compute_schema_ok_inv h
  rw [hs]
  exact computeOnly_sparse hq

/-- C2 witness at a concrete sparse-fieldset request. -/
theorem C2_witness :
    ∃ s k l, compute_schema envT 2 clsPerson {} qsPeople none = .ok (s, k) ∧
      s.kwargs.only = some l ∧ "name" ∈ l ∧ "id" ∈ l ∧ "tags" ∉ l := by
  obtain ⟨⟨s, k⟩, h⟩ := exists_ok_of_isOk
    (compute_schema envT 2 clsPerson {} qsPeople none) (by decide)
  obtain ⟨l, hl, hiff⟩ :=
    C2_sparse_only envT 2 clsPerson {} qsPeople none s k ["name"] h (by decide)
  refine ⟨s, k, l, h, hl, ?_, ?_, ?_⟩
  · exact (hiff "name").mpr (Or.inl ⟨by decide, by decide, fun oo hoo => by cases hoo⟩)
  · exact (hiff "id").mpr (Or.inr rfl)
  · intro hx
    rcases (hiff "tags").mp hx with ⟨_, h2, _⟩ | h3
    · exact absurd h2 (by decide)
    · exact absurd h3 (by decide)

/-- C10 counterexample: for a schema class with no declared `id` field and
a sparse fieldset containing the undeclared names `id` and `bogus`, the
resulting `only` value is `("id",)`: the undeclared name `"id"` is present
in the schema's `only` value, refuting the claim that all unknown
sparse-fieldset names are absent from it. -/
theorem C10_counterexample :
    lookupG qsThings.fields clsThing.type_ = some ["id", "bogus"] ∧
    "id" ∉ fmKeys clsThing.fields ∧
    resultOnly (compute_schema envT 2 clsThing {} qsThings none)
      = some (some ["id"]) := by
  exact ⟨by decide, by decide, by decide⟩

/-- C10 (amended): unknown sparse-fieldset names are harmless: (a) names
other than `"id"` that are not declared fields are silently dropped by the
intersection with the declared field names and are absent from the
resulting schema's `only` value (`"id"` itself is appended unconditionally
by lines 71-73, even when undeclared); (b) errors never arise on a sparse
fieldset's account: the error outcome of `compute_schema` is independent
of the entire query-string object. -/
theorem C10_unknown_sparse_dropped (env : Env) (fuel : Nat) (cls : SchemaCls)
    (dk : SKwargs) (qs : QS) (ia : Option (List String)) :
    (∀ (s : CSchema) (k : SKwargs) (qsf : List String) (x : String),
      compute_schema env fuel cls dk qs ia = .ok (s, k) →
      lookupG qs.fields cls.type_ = some qsf →
      x ∉ fmKeys cls.fields → x ≠ "id" → x ∉ (s.kwargs.only).getD []) ∧
    (∀ (qs2 : QS) (e : CsErr),
      compute_schema env fuel cls dk qs ia = .error e ↔
        compute_schema env fuel cls dk qs2 ia = .error e) := by
  constructor
  · intro s k qsf x h hq hx hxid
    obtain ⟨f', hf⟩ := compute_schema_fuel_succ h
    subst hf
    obtain ⟨ff, hv, hp, hs, hk⟩ := compute_schema_ok_inv h
    obtain ⟨l, hl, hiff⟩ :=
      @computeOnly_sparse cls qs dk.only _ hq
    have hOnly : s.kwargs.only = some l := by
      rw [hs]
      exact hl
    rw [hOnly]
    intro hmem
    simp only [Option.getD_some] at hmem
    rcases (hiff x).mp hmem with ⟨h1, _, _⟩ | h2
    · exact hx h1
    · exact hxid h2
  · intro qs2 e
    exact ⟨fun h => cs_err_indep env fuel cls ia dk dk qs qs2 e h,
      fun h => cs_err_indep env fuel cls ia dk dk qs2 qs e h⟩

/-- C10 witness at a concrete request with unknown sparse names. -/
theorem C10_witness :
    (∃ s k, compute_schema envT 2 clsPerson {} qsPeople none = .ok (s, k) ∧
      "bogus" ∉ (s.kwargs.only).getD []) ∧
    (compute_schema envT 2 clsPerson {} qsPeople none = .error .outOfFuel ↔
      compute_schema envT 2 clsPerson {} qsE none = .error .outOfFuel) := by
  constructor
  · obtain ⟨⟨s, k⟩, h⟩ := exists_ok_of_isOk
      (compute_schema envT 2 clsPerson {} qsPeople none) (by decide)
    exact ⟨s, k, h,
      (C10_unknown_sparse_dropped envT 2 clsPerson {} qsPeople none).1 s k ["name"]
        "bogus" h (by decide) (by decide) (by decide)⟩
  · exact (C10_unknown_sparse_dropped envT 2 clsPerson {} qsPeople none).2 qsE .outOfFuel

theorem compute_schema_none_ne_ii (env : Env) (fuel : Nat) (cls : SchemaCls)
    (dk : SKwargs) (qs : QS) (m : String) :
    compute_schema env fuel cls dk qs none ≠ .error (.invalidInclude m) := by
  intro h
  have hmsg := compute_schema_none_not_ii env fuel cls dk qs
  rw [h] at hmsg
  cases hmsg

/-- C1 counterexample: the include path `"tags.x"` has the valid first
segment `tags` (a declared Relationship field of `clsPerson`), yet
`compute_schema` raises `InvalidInclude` — from the recursive call on the
related schema, whose class has no field `x`.  This refutes the claimed
"only if" direction: an `InvalidInclude` can be raised although every
include path's first segment is a declared Relationship field. -/
theorem C1_counterexample :
    (["tags.x"].all (goodFirst clsPerson) = true) ∧
    invalidIncludeMsg (compute_schema envT 2 clsPerson {} qsE (some ["tags.x"]))
      = some "TagSchema has no attribute x" := by
  exact ⟨by decide, by decide⟩

/-- C1 (amended): `compute_schema` raises `InvalidInclude` if some include
path's first dot-separated segment is not a declared field of the schema
class or not a `Relationship` field; and when every include path's first
segment is a declared `Relationship` field and no include path contains a
dot, no `InvalidInclude` is raised.  (For dotted paths, the recursive call
may still raise `InvalidInclude` for a later segment.) -/
theorem C1_invalid_include (env : Env) (fuel : Nat) (cls : SchemaCls) (dk : SKwargs)
    (qs : QS) (inc : List String) :
    ((∃ p ∈ inc, goodFirst cls p = false) →
      (invalidIncludeMsg (compute_schema env (fuel + 1) cls dk qs (some inc))).isSome
        = true) ∧
    ((∀ p ∈ inc, goodFirst cls p = true) → (∀ p ∈ inc, hasDot p = false) →
      invalidIncludeMsg (compute_schema env (fuel + 1) cls dk qs (some inc)) = none) := by
  constructor
  · rintro ⟨p, hp, hbad⟩
    have hnok : validateIncludes cls (incList (some inc)) ≠ .ok () := by
      intro hok
      have hall := (validateIncludes_ok_iff cls (incList (some inc))).mp hok
      rw [hall p hp] at hbad
      cases hbad
    cases hvv : validateIncludes cls (incList (some inc)) with
    | ok u =>
      cases u
      exact absurd hvv hnok
    | error e =>
      obtain ⟨m, hm⟩ := validateIncludes_err_ii cls _ e hvv
      subst hm
      rw [compute_schema_succ, hvv]
      rfl
  · intro hgood hnodot
    have hvok : validateIncludes cls (incList (some inc)) = .ok () :=
      (validateIncludes_ok_iff cls (incList (some inc))).mpr hgood
    rw [compute_schema_succ, hvok]
    cases hpp : processIncludes env (fun c kk i => compute_schema env fuel c kk qs i)
        (dkAfter cls dk qs (some inc)) (buildRelatedIncludes (incList (some inc)))
        (buildGroups (dk.only.getD [])) (buildGroups (dk.exclude.getD []))
        (incList (some inc)) cls.fields with
    | ok ff => rfl
    | error e =>
      have hne : ∀ m, e ≠ .invalidInclude m := by
        intro m hm
        subst hm
        exact processIncludes_not_ii env (fun c kk i => compute_schema env fuel c kk qs i)
          (dkAfter cls dk qs (some inc)) (buildRelatedIncludes (incList (some inc)))
          (buildGroups (dk.only.getD [])) (buildGroups (dk.exclude.getD []))
          (fun c kk m' => compute_schema_none_ne_ii env fuel c kk qs m')
          (fun f ts hts => by
            rw [buildRelatedIncludes_lookup] at hts
            by_cases hmem : f ∈ (incList (some inc)).map firstSeg
            · rw [if_pos hmem] at hts
              have hts2 := (Option.some.injEq _ _).mp hts
              rw [← hts2]
              exact dottedRemainders_nil_of f _ (fun q hq hc => by
                rw [hnodot q hq] at hc
                cases hc.2)
            · rw [if_neg hmem] at hts
              cases hts)
          (incList (some inc)) cls.fields m hpp
      cases e with
      | invalidInclude m => exact absurd rfl (hne m)
      | registryError m => rfl
      | genericError m => rfl
      | keyError => rfl
      | attrError => rfl
      | outOfFuel => rfl

/-- C1 witness: a bad first segment raises `InvalidInclude`; a good,
dot-free include list raises none. -/
theorem C1_witness :
    (invalidIncludeMsg (compute_schema envT 1 clsPerson {} qsE (some ["junk"]))).isSome
      = true ∧
    invalidIncludeMsg (compute_schema envT 1 clsPerson {} qsE (some ["tags"])) = none := by
  constructor
  · exact (C1_invalid_include envT 0 clsPerson {} qsE ["junk"]).1
      ⟨"junk", by decide, by decide⟩
  · exact (C1_invalid_include envT 0 clsPerson {} qsE ["tags"]).2 (by decide) (by decide)

/-- C5: for every include path of a successful call that contains a dot,
the returned schema instance holds, under the path's first segment, a
relationship field whose `_Relationship__schema` slot was rewritten to a
schema instance produced by a recursive `compute_schema` call. The field
read by the loop, `fld0`, is the class's declared field for that segment
(possibly with its slot already rewritten by an earlier iteration, cf.
`FieldStateOf`); the recursion runs on the class obtained by resolving
that field's stored schema reference — class object, registry name, or
schema instance, cf. `resolveCls` — with the related kwargs built from
that same field, and with the include list of remainders of all include
paths sharing that first segment, each with its first segment and dot
removed. -/
theorem C5_nested_schema (env : Env) (fuel : Nat) (cls : SchemaCls) (dk : SKwargs)
    (qs : QS) (inc : List String) (s : CSchema) (k : SKwargs) (p : String)
    (h : compute_schema env (fuel + 1) cls dk qs (some inc) = .ok (s, k))
    (hp : p ∈ inc) (hd : hasDot p = true) :
    ∃ fld0 rcls s' k',
      FieldStateOf cls.fields (firstSeg p) fld0 ∧
      lookupFM s.declared (firstSeg p) = some (fld0.withRel (.computed s')) ∧
      resolveCls env fld0.rel = .ok rcls ∧
      compute_schema env fuel rcls
        (mkRelatedKwargs (dkAfter cls dk qs (some inc)) fld0
          (buildGroups (dk.only.getD [])) (buildGroups (dk.exclude.getD []))
          (firstSeg p))
        qs (some (dottedRemainders (firstSeg p) inc)) = .ok (s', k') := by
  obtain ⟨ff, hv, hpp, hs, hk⟩ := compute_schema_ok_inv h
  obtain ⟨fld0, rcls, s', k', horig, hlk, hres, hrec⟩ :=
    processIncludes_spec env (fun c kk i => compute_schema env fuel c kk qs i)
      (dkAfter cls dk qs (some inc)) (buildRelatedIncludes (incList (some inc)))
      (buildGroups (dk.only.getD [])) (buildGroups (dk.exclude.getD []))
      (incList (some inc)) cls.fields ff hpp p hp
  refine ⟨fld0, rcls, s', k', horig, ?_, hres, ?_⟩
  · rw [hs]
    exact hlk
  · have hbl : lookupG (buildRelatedIncludes (incList (some inc))) (firstSeg p)
        = some (dottedRemainders (firstSeg p) (incList (some inc))) := by
      rw [buildRelatedIncludes_lookup,
        if_pos (show firstSeg p ∈ (incList (some inc)).map firstSeg from
          List.mem_map_of_mem firstSeg hp)]
    rw [hbl] at hrec
    simp only [Option.getD_some] at hrec
    have hne := dottedRemainders_ne_nil (firstSeg p) (incList (some inc)) p hp rfl hd
    have hopt : optOf (dottedRemainders (firstSeg p) (incList (some inc)))
        = some (dottedRemainders (firstSeg p) (incList (some inc))) := by
      simp only [optOf]
      rw [if_neg (fun hemp => hne (List.isEmpty_iff.mp hemp))]
    rw [hopt] at hrec
    exact hrec

/-- C5 witness: a two-level include `"b.c"` on a concrete class chain. -/
theorem C5_witness :
    ∃ s k, compute_schema envT 3 clsAa {} qsE (some ["b.c"]) = .ok (s, k) ∧
      ∃ fld0 rcls s' k',
        FieldStateOf clsAa.fields "b" fld0 ∧
        lookupFM s.declared "b" = some (fld0.withRel (.computed s')) ∧
        resolveCls envT fld0.rel = .ok rcls ∧
        compute_schema envT 2 rcls
          (mkRelatedKwargs (dkAfter clsAa {} qsE (some ["b.c"])) fld0
            (buildGroups ((({} : SKwargs).only).getD []))
            (buildGroups ((({} : SKwargs).exclude).getD [])) "b")
          qsE (some ["c"]) = .ok (s', k') := by
  obtain ⟨⟨s, k⟩, h⟩ := exists_ok_of_isOk
    (compute_schema envT 3 clsAa {} qsE (some ["b.c"])) (by decide)
  refine ⟨s, k, h, ?_⟩
  have hmain := C5_nested_schema envT 2 clsAa {} qsE ["b.c"] s k "b.c" h
    (by decide) (by decide)
  rw [show firstSeg "b.c" = "b" from by decide] at hmain
  rw [show dottedRemainders "b" ["b.c"] = ["c"] from by decide] at hmain
  exact hmain

theorem mem_fmKeys_of_mem_pairs : ∀ (fm : FieldMap) (k : String) (fld : MField),
    (k, fld) ∈ fmPairs fm → k ∈ fmKeys fm
  | .fnil, _, _, hmem => absurd hmem (List.not_mem_nil _)
  | .fcons k0 f0 rest, k, fld, hmem => by
    simp only [fmPairs, List.mem_cons] at hmem
    simp only [fmKeys, List.mem_cons]
    rcases hmem with heq | hmem
    · injection heq with h1 h2
      exact Or.inl h1
    · exact Or.inr (mem_fmKeys_of_mem_pairs rest k fld hmem)

theorem mem_pairs_of_lookupFM : ∀ (fm : FieldMap) (k : String) (fld : MField),
    lookupFM fm k = some fld → (k, fld) ∈ fmPairs fm
  | .fnil, _, _, h => by cases h
  | .fcons k0 f0 rest, k, fld, h => by
    simp only [lookupFM] at h
    simp only [fmPairs, List.mem_cons]
    by_cases hk : k0 = k
    · rw [if_pos hk] at h
      cases h
      exact Or.inl (by rw [hk])
    · rw [if_neg hk] at h
      exact Or.inr (mem_pairs_of_lookupFM rest k fld h)

theorem lookupFM_of_mem_pairs : ∀ (fm : FieldMap) (k : String) (fld : MField),
    (fmKeys fm).Nodup → (k, fld) ∈ fmPairs fm → lookupFM fm k = some fld
  | .fnil, _, _, _, hmem => absurd hmem (List.not_mem_nil _)
  | .fcons k0 f0 rest, k, fld, hnd, hmem => by
    simp only [fmPairs, List.mem_cons] at hmem
    simp only [fmKeys, List.nodup_cons] at hnd
    rcases hmem with heq | hmem
    · injection heq with h1 h2
      subst h1
      subst h2
      simp [lookupFM]
    · have hkmem : k ∈ fmKeys rest := mem_fmKeys_of_mem_pairs rest k fld hmem
      have hne : ¬ k0 = k := fun h => hnd.1 (h ▸ hkmem)
      simp only [lookupFM, if_neg hne]
      exact lookupFM_of_mem_pairs rest k fld hnd.2 hmem

theorem findSchemaField_some_spec : ∀ (fm : FieldMap) (m k : String),
    findSchemaField fm m = some k →
      ∃ fld, (k, fld) ∈ fmPairs fm ∧ modelFieldOf fld k = m
  | .fnil, _, _, h => by cases h
  | .fcons k0 f0 rest, m, k, h => by
    simp only [findSchemaField] at h
    by_cases hc : modelFieldOf f0 k0 = m
    · rw [if_pos hc] at h
      cases h
      exact ⟨f0, by simp [fmPairs], hc⟩
    · rw [if_neg hc] at h
      obtain ⟨fld, hmem, hm⟩ := findSchemaField_some_spec rest m k h
      exact ⟨fld, by simp [fmPairs, hmem], hm⟩

theorem findSchemaField_isSome_of : ∀ (fm : FieldMap) (m k : String) (fld : MField),
    (k, fld) ∈ fmPairs fm → modelFieldOf fld k = m →
      (findSchemaField fm m).isSome = true
  | .fnil, _, _, _, hmem, _ => absurd hmem (List.not_mem_nil _)
  | .fcons k0 f0 rest, m, k, fld, hmem, hm => by
    simp only [findSchemaField]
    by_cases hc : modelFieldOf f0 k0 = m
    · rw [if_pos hc]
      rfl
    · rw [if_neg hc]
      simp only [fmPairs, List.mem_cons] at hmem
      rcases hmem with heq | hmem
      · injection heq with h1 h2
        subst h1
        subst h2
        exact absurd hm hc
      · exact findSchemaField_isSome_of rest m k fld hmem hm

/-- C6: `get_model_field` raises exactly when the field name is not a key
of the schema's declared fields; for a declared field it returns the
field's `attribute` when that is not `None` and the field name itself
otherwise. -/
theorem C6_get_model_field (schema : SchemaCls) (field : String) :
    ((∃ msg, get_model_field schema field = .error (.genericError msg)) ↔
      lookupFM schema.fields field = none) ∧
    (∀ fld, lookupFM schema.fields field = some fld →
      get_model_field schema field = .ok ((fld.attr).getD field)) := by
  constructor
  · constructor
    · rintro ⟨msg, hmsg⟩
      cases hl : lookupFM schema.fields field with
      | none => rfl
      | some fld =>
        have hok : get_model_field schema field = .ok (modelFieldOf fld field) := by
          simp only [get_model_field, hl]
        rw [hok] at hmsg
        cases hmsg
    · intro hl
      refine ⟨schema.name ++ " has no attribute " ++ field, ?_⟩
      simp only [get_model_field, hl]
  · intro fld hl
    simp only [get_model_field, hl, modelFieldOf]

/-- C6 witness: an undeclared field raises; a declared field with an
`attribute` returns that attribute. -/
theorem C6_witness :
    (∃ msg, get_model_field clsPerson "bogus" = .error (.genericError msg)) ∧
    get_model_field clsPerson "name" = .ok "full_name" := by
  constructor
  · exact (C6_get_model_field clsPerson "bogus").1.mpr (by rfl)
  · exact (C6_get_model_field clsPerson "name").2
      (.mk false (some "full_name") .noneRef none none) (by rfl)

/-- C7: with unique declared field names, the schema/model field lookup
round-trips: for a declared field `f`, `get_schema_field` applied to
`get_model_field schema f` succeeds and returns a declared field name `k`
with the same model field, and `k = f` whenever no two declared fields map
to the same model field; a model field name matched by no declared field
makes `get_schema_field` raise. -/
theorem C7_roundtrip (schema : SchemaCls) (hnd : (fmKeys schema.fields).Nodup) :
    (∀ f m, get_model_field schema f = .ok m →
      ∃ k, get_schema_field schema m = .ok k ∧ get_model_field schema k = .ok m ∧
        (((fmPairs schema.fields).map (fun e => modelFieldOf e.2 e.1)).Nodup → k = f)) ∧
    (∀ m, (∀ e ∈ fmPairs schema.fields, modelFieldOf e.2 e.1 ≠ m) →
      ∃ msg, get_schema_field schema m = .error (.genericError msg)) := by
  constructor
  · intro f m hgm
    have hfld : ∃ fld, lookupFM schema.fields f = some fld ∧ modelFieldOf fld f = m := by
      cases hl : lookupFM schema.fields f with
      | none =>
        have herr : get_model_field schema f
            = .error (.genericError (schema.name ++ " has no attribute " ++ f)) := by
          simp only [get_model_field, hl]
        rw [herr] at hgm
        cases hgm
      | some fld =>
        have hok : get_model_field schema f = .ok (modelFieldOf fld f) := by
          simp only [get_model_field, hl]
        rw [hok] at hgm
        exact ⟨fld, rfl, (Except.ok.injEq _ _).mp hgm⟩
    obtain ⟨fld, hl, hm⟩ := hfld
    have hmemp : (f, fld) ∈ fmPairs schema.fields :=
      mem_pairs_of_lookupFM schema.fields f fld hl
    have hsome := findSchemaField_isSome_of schema.fields m f fld hmemp hm
    obtain ⟨k, hk⟩ : ∃ k, findSchemaField schema.fields m = some k := by
      cases hf : findSchemaField schema.fields m with
      | none => rw [hf] at hsome; cases hsome
      | some k => exact ⟨k, rfl⟩
    obtain ⟨fldk, hkmem, hkm⟩ := findSchemaField_some_spec schema.fields m k hk
    have hlk : lookupFM schema.fields k = some fldk :=
      lookupFM_of_mem_pairs schema.fields k fldk hnd hkmem
    refine ⟨k, ?_, ?_, ?_⟩
    · simp only [get_schema_field, hk]
    · have hok : get_model_field schema k = .ok (modelFieldOf fldk k) := by
        simp only [get_model_field, hlk]
      rw [hok, hkm]
    · intro hinj
      have heq := List.inj_on_of_nodup_map hinj hkmem hmemp
        (by show modelFieldOf fldk k = modelFieldOf fld f; rw [hkm, hm])
      exact congrArg Prod.fst heq
  · intro m hnot
    cases hf : findSchemaField schema.fields m with
    | some k =>
      obtain ⟨fldk, hkmem, hkm⟩ := findSchemaField_some_spec schema.fields m k hf
      exact absurd hkm (hnot (k, fldk) hkmem)
    | none =>
      exact ⟨"Couldnt find schema field from " ++ m, by simp only [get_schema_field, hf]⟩

/-- C7 witness at a concrete schema with injective model-field names. -/
theorem C7_witness :
    (∃ k, get_schema_field clsPerson "full_name" = .ok k ∧
      get_model_field clsPerson k = .ok "full_name" ∧ k = "name") ∧
    (∃ msg, get_schema_field clsPerson "zzz" = .error (.genericError msg)) := by
  constructor
  · obtain ⟨k, h1, h2, h3⟩ :=
      (C7_roundtrip clsPerson (by decide)).1 "name" "full_name" (by rfl)
    exact ⟨k, h1, h2, h3 (by decide)⟩
  · exact (C7_roundtrip clsPerson (by decide)).2 "zzz" (by decide)

theorem scan_ok_spec : ∀ (reg : List (String × List RegCls)) (t : String) (c : SchemaCls),
    schemaFromTypeScan t reg = .ok c →
    ∃ l1 n entry l2, reg = l1 ++ (n, entry) :: l2 ∧
      (∀ x ∈ l1, readOptsType x.2 ≠ some t) ∧
      readOptsType entry = some t ∧ headCls entry = some c
  | [], t, c, h => by cases h
  | (n0, entry0) :: rest, t, c, h => by
    cases entry0 with
    | nil =>
      obtain ⟨l1, n, entry, l2, heq, hpre, hm, hc⟩ := scan_ok_spec rest t c h
      refine ⟨(n0, []) :: l1, n, entry, l2, by rw [heq]; rfl, ?_, hm, hc⟩
      intro x hx
      rcases List.mem_cons.mp hx with rfl | hx2
      · intro hh
        cases hh
      · exact hpre x hx2
    | cons c0 cs =>
      cases hopt : c0.optsType with
      | none =>
        have hred : schemaFromTypeScan t ((n0, c0 :: cs) :: rest)
            = schemaFromTypeScan t rest := by
          simp only [schemaFromTypeScan, hopt]
        rw [hred] at h
        obtain ⟨l1, n, entry, l2, heq, hpre, hm, hc⟩ := scan_ok_spec rest t c h
        refine ⟨(n0, c0 :: cs) :: l1, n, entry, l2, by rw [heq]; rfl, ?_, hm, hc⟩
        intro x hx
        rcases List.mem_cons.mp hx with rfl | hx2
        · intro hh
          simp only [readOptsType, hopt] at hh
          exact Option.noConfusion hh
        · exact hpre x hx2
      | some tt =>
        by_cases htt : tt = t
        · have hred : schemaFromTypeScan t ((n0, c0 :: cs) :: rest) = .ok c0.cls := by
            simp only [schemaFromTypeScan, hopt, if_pos htt]
          rw [hred] at h
          refine ⟨[], n0, c0 :: cs, rest, rfl, by simp, ?_, ?_⟩
          · simp only [readOptsType, hopt, htt]
          · simp only [headCls]
            rw [(Except.ok.injEq _ _).mp h]
        · have hred : schemaFromTypeScan t ((n0, c0 :: cs) :: rest)
              = schemaFromTypeScan t rest := by
            simp only [schemaFromTypeScan, hopt, if_neg htt]
          rw [hred] at h
          obtain ⟨l1, n, entry, l2, heq, hpre, hm, hc⟩ := scan_ok_spec rest t c h
          refine ⟨(n0, c0 :: cs) :: l1, n, entry, l2, by rw [heq]; rfl, ?_, hm, hc⟩
          intro x hx
          rcases List.mem_cons.mp hx with rfl | hx2
          · intro hh
            simp only [readOptsType, hopt] at hh
            exact htt ((Option.some.injEq _ _).mp hh)
          · exact hpre x hx2

theorem scan_error_iff : ∀ (reg : List (String × List RegCls)) (t : String),
    (∃ msg, schemaFromTypeScan t reg = .error (.genericError msg)) ↔
      ∀ x ∈ reg, readOptsType x.2 ≠ some t
  | [], t => by
    constructor
    · intro _ x hx
      cases hx
    · intro _
      exact ⟨"Couldnt find schema for type: " ++ t, rfl⟩
  | (n0, entry0) :: rest, t => by
    have htail := scan_error_iff rest t
    cases entry0 with
    | nil =>
      constructor
      · intro hex x hx
        rcases List.mem_cons.mp hx with rfl | hx2
        · intro hh
          cases hh
        · exact htail.mp hex x hx2
      · intro hall
        exact htail.mpr (fun x hx => hall x (List.mem_cons_of_mem _ hx))
    | cons c0 cs =>
      cases hopt : c0.optsType with
      | none =>
        have hred : schemaFromTypeScan t ((n0, c0 :: cs) :: rest)
            = schemaFromTypeScan t rest := by
          simp only [schemaFromTypeScan, hopt]
        rw [hred]
        constructor
        · intro hex x hx
          rcases List.mem_cons.mp hx with rfl | hx2
          · intro hh
            simp only [readOptsType, hopt] at hh
            exact Option.noConfusion hh
          · exact htail.mp hex x hx2
        · intro hall
          exact htail.mpr (fun x hx => hall x (List.mem_cons_of_mem _ hx))
      | some tt =>
        by_cases htt : tt = t
        · have hred : schemaFromTypeScan t ((n0, c0 :: cs) :: rest) = .ok c0.cls := by
            simp only [schemaFromTypeScan, hopt, if_pos htt]
          rw [hred]
          constructor
          · rintro ⟨msg, hmsg⟩
            cases hmsg
          · intro hall
            exfalso
            exact hall (n0, c0 :: cs) (List.mem_cons_self _ _)
              (by simp only [readOptsType, hopt, htt])
        · have hred : schemaFromTypeScan t ((n0, c0 :: cs) :: rest)
              = schemaFromTypeScan t rest := by
            simp only [schemaFromTypeScan, hopt, if_neg htt]
          rw [hred]
          constructor
          · intro hex x hx
            rcases List.mem_cons.mp hx with rfl | hx2
            · intro hh
              simp only [readOptsType, hopt] at hh
              exact htt ((Option.some.injEq _ _).mp hh)
            · exact htail.mp hex x hx2
          · intro hall
            exact htail.mpr (fun x hx => hall x (List.mem_cons_of_mem _ hx))

/-- C8: `get_schema_from_type` scans the class registry in iteration order
and returns the head class of the first entry whose `opts.type_` is
readable and equal to the requested type (entries whose `opts.type_`
cannot be read are skipped by the `try/except`); it raises exactly when
no registry entry has a readable, matching `opts.type_`. -/
theorem C8_schema_from_type (env : Env) (t : String) :
    (∀ c, get_schema_from_type env t = .ok c →
      ∃ l1 n entry l2, env.registry = l1 ++ (n, entry) :: l2 ∧
        (∀ x ∈ l1, readOptsType x.2 ≠ some t) ∧
        readOptsType entry = some t ∧ headCls entry = some c) ∧
    ((∃ msg, get_schema_from_type env t = .error (.genericError msg)) ↔
      ∀ x ∈ env.registry, readOptsType x.2 ≠ some t) := by
  constructor
  · intro c hc
    exact scan_ok_spec env.registry t c hc
  · exact scan_error_iff env.registry t

/-- C8 witness on a registry with an empty entry, an unreadable entry and
a matching entry. -/
theorem C8_witness :
    (∃ l1 n entry l2, envR.registry = l1 ++ (n, entry) :: l2 ∧
      (∀ x ∈ l1, readOptsType x.2 ≠ some "people") ∧
      readOptsType entry = some "people" ∧ headCls entry = some clsPerson) ∧
    (∃ msg, get_schema_from_type envR "nope" = .error (.genericError msg)) := by
  constructor
  · exact (C8_schema_from_type envR "people").1 clsPerson (by rfl)
  · exact (C8_schema_from_type envR "nope").2.mpr (by decide)
